import Mathlib

/-!
# Red October order bookkeeping (`order/order.go`, `notifier/notify.go`, `notifier/slack.go`)

A shallow embedding of the `order` package, of the `Notifier` interface it
uses and of the Slack notifier, followed by theorems about `FindOrder`,
`CreateOrder`, `GenerateNum` and the notification operations.

Modelling conventions

* A Go `string` is a Lean `String`; where the code works on the bytes of a
  string (URL query escaping, sorting of query keys) the UTF-8 bytes are used.
  Go strings that are not valid UTF-8 are outside the model.
* A Go `map` is the list of its entries in the order in which the `range`
  loop of the run under consideration visits them.  Go leaves that order
  unspecified, so statements are proved for every list.
* A Go `error` is `Option GoError`: `none` is `nil`, `some e` a non-nil error
  with message `e`.
* `int`, `time.Time` and `time.Duration` values are integers; a byte is a
  natural number below 256.
* What lies outside the repository is a parameter: the notifier behind the
  interface, the outcome of `rand.Read`, the HTTP and JSON calls of the Slack
  notifier.  Functions of the Go standard library that the code calls with
  fixed meaning (`fmt.Sprintf`, `strconv.Itoa`, `net/url` escaping,
  `encoding/hex`) are modelled after their documentation.
-/

set_option autoImplicit false

namespace RedOctober

/-! ## notifier/notify.go -/

namespace notifier

def RedBackground : String := "red"
def YellowBackground : String := "yellow"
def GreenBackground : String := "green"
def GrayBackground : String := "gray"
def RandomBackground : String := "random"
def PurpleBackground : String := "purple"

end notifier

/-- A non-nil Go `error`, identified with its message. -/
abbrev GoError := String

/-- The `Notifier` interface: one method `Notify(msg, color string) error`.
An implementation may keep state of its own (of type `σ`), which a call reads
and updates; what a call returns may depend on that state in any way, so a
notifier whose outcome is not determined by its arguments is covered by a
suitable choice of `σ`. -/
structure Notifier (σ : Type) where
  Notify : σ → String → String → Option GoError × σ

/-! ## order/order.go: data -/

/-- Struct `Order`. -/
structure Order where
  Creator : String
  Users : List String
  Num : String
  TimeRequested : Int
  DurationRequested : Int
  Delegated : Int
  OwnersDelegated : List String
  Owners : List String
  Labels : List String
  deriving DecidableEq, Repr

/-- Struct `Orderer`.  `Orders` lists the entries of the map in iteration
order; `Notifier` is `none` for a nil interface value. -/
structure Orderer (σ : Type) where
  Orders : List (String × Order)
  Notifier : Option (Notifier σ)
  RoHost : String
  AlternateName : String

/-- `NewOrderer`: an empty map, the given notifier and host. -/
def NewOrderer {σ : Type} (roHost : String) (notifier : Option (Notifier σ)) : Orderer σ :=
  { Orders := [], Notifier := notifier, RoHost := roHost, AlternateName := "HipchatName" }

/-! ## order/order.go: FindOrder -/

/-- The loop `for _, orderUser := range order.Users` of `FindOrder`, started
with `foundUser = found`. -/
def scanUsers (user : String) : List String → Bool → Bool
  | [], found => found
  | orderUser :: rest, found => scanUsers user rest (if orderUser = user then true else found)

/-- The inner loop `for _, il := range labels` of `FindOrder` for one order
label `ol`, started with `foundLabel = found`. -/
def scanCallerLabels (ol : String) : List String → Bool → Bool
  | [], found => found
  | il :: rest, found => scanCallerLabels ol rest (if il = ol then true else found)

/-- The outer loop `for _, ol := range order.Labels` of `FindOrder`: each
iteration first resets `foundLabel` to `false` and then runs the inner loop. -/
def scanOrderLabels (labels : List String) : List String → Bool → Bool
  | [], found => found
  | ol :: rest, _ => scanOrderLabels labels rest (scanCallerLabels ol labels false)

/-- The loop `for key, order := range o.Orders` of `FindOrder`, with the
final `return "", false`. -/
def findLoop (user : String) (labels : List String) : List (String × Order) → String × Bool
  | [] => ("", false)
  | (key, order) :: rest =>
    let foundLabel := false
    let foundUser := false
    let foundUser := scanUsers user order.Users foundUser
    if !foundUser then findLoop user labels rest
    else
      let foundLabel := scanOrderLabels labels order.Labels foundLabel
      if !foundLabel then findLoop user labels rest
      else (key, true)

/-- Method `(o *Orderer) FindOrder(user, labels)`. -/
def FindOrder {σ : Type} (o : Orderer σ) (user : String) (labels : List String) : String × Bool :=
  findLoop user labels o.Orders

/-- Whether the body of the registry loop returns for this order. -/
def accepts (user : String) (labels : List String) (order : Order) : Bool :=
  scanUsers user order.Users false && scanOrderLabels labels order.Labels false

/-! ## Library functions used by the notification code

Models of the Go standard library functions that `order.go` calls, after their
documentation: `fmt.Sprintf` (verbs `%s`, `%d` and `%%`), `strconv.Itoa`,
`url.QueryEscape` and `url.Values.Encode`. -/

/-- The bytes of a Go string: the UTF-8 encoding of the text. -/
def goBytes (s : String) : List Nat :=
  s.data.flatMap (fun ch => (String.utf8EncodeChar ch).map UInt8.toNat)

/-- `strconv.Itoa`: the decimal rendering of an `int`, with `-` for negatives. -/
def Itoa (i : Int) : String := toString i

/-- An operand of `Sprintf`. -/
inductive Arg where
  | str (s : String)
  | int (n : Int)
  deriving DecidableEq, Repr

/-- An element of a format string: literal text, a verb `%v`, or a lone `%`
that ends the format. -/
inductive Piece where
  | lit (s : String)
  | verb (v : Char)
  | noverb
  deriving DecidableEq, Repr

/-- Split a format string into literal runs and verbs; `%%` is a literal `%`. -/
def parseFormat : List Char → List Piece
  | [] => []
  | c :: rest =>
    if c = '%' then
      match rest with
      | [] => [Piece.noverb]
      | v :: rest2 => (if v = '%' then Piece.lit "%" else Piece.verb v) :: parseFormat rest2
    else
      match parseFormat rest with
      | Piece.lit s :: ps => Piece.lit (String.singleton c ++ s) :: ps
      | ps => Piece.lit (String.singleton c) :: ps

def Arg.typeName : Arg → String
  | Arg.str _ => "string"
  | Arg.int _ => "int"

def Arg.value : Arg → String
  | Arg.str s => s
  | Arg.int n => Itoa n

/-- One verb applied to its operand: `%s` prints a string, `%d` an integer in
decimal; a verb without operand prints `%!v(MISSING)` and a verb that does not
fit its operand prints `%!v(type=value)`.  Verbs other than `s` and `d` are
not modelled and are printed in the latter form. -/
def renderVerb (v : Char) : Option Arg → String
  | none => "%!" ++ String.singleton v ++ "(MISSING)"
  | some (Arg.str s) =>
    if v = 's' then s else "%!" ++ String.singleton v ++ "(string=" ++ s ++ ")"
  | some (Arg.int n) =>
    if v = 'd' then Itoa n else "%!" ++ String.singleton v ++ "(int=" ++ Itoa n ++ ")"

/-- Print the pieces of a format, consuming one operand per verb; operands
left over are reported as `%!(EXTRA ...)`. -/
def render : List Piece → List Arg → String
  | [], [] => ""
  | [], a :: as =>
    "%!(EXTRA " ++ ", ".intercalate ((a :: as).map fun x => x.typeName ++ "=" ++ x.value) ++ ")"
  | Piece.lit s :: ps, args => s ++ render ps args
  | Piece.noverb :: ps, args => "%!(NOVERB)" ++ render ps args
  | Piece.verb v :: ps, [] => renderVerb v none ++ render ps []
  | Piece.verb v :: ps, a :: as => renderVerb v (some a) ++ render ps as

/-- `fmt.Sprintf` for formats built from text, `%s`, `%d` and `%%`. -/
def Sprintf (format : String) (args : List Arg) : String :=
  render (parseFormat format.data) args

/-- `shouldEscape(c, encodeQueryComponent)` of `net/url`: only the ASCII
letters and digits and `-`, `_`, `.`, `~` are left as they are. -/
def shouldEscape (c : Nat) : Bool :=
  if (97 ≤ c ∧ c ≤ 122) ∨ (65 ≤ c ∧ c ≤ 90) ∨ (48 ≤ c ∧ c ≤ 57) then false
  else if c = 45 ∨ c = 95 ∨ c = 46 ∨ c = 126 then false
  else true

/-- The digits `upperhex` of `net/url`. -/
def upperhex : List Char := "0123456789ABCDEF".data

/-- The escaped form of one byte: a space becomes `+`, any other byte that
must be escaped becomes `%XY` with `X = upperhex[c>>4]`, `Y = upperhex[c&15]`. -/
def escapeByte (c : Nat) : List Char :=
  if shouldEscape c then
    if c = 32 then ['+']
    else ['%', upperhex.getD (c / 16) '0', upperhex.getD (c % 16) '0']
  else [Char.ofNat c]

/-- `url.QueryEscape`. -/
def QueryEscape (s : String) : String :=
  String.mk ((goBytes s).flatMap escapeByte)

/-- Type `url.Values`, a `map[string][]string`, as the list of its entries. -/
abbrev Values := List (String × List String)

/-- Insert a key into a list sorted by byte-wise comparison. -/
def insertKey (k : String) : List String → List String
  | [] => [k]
  | x :: xs => if goBytes k < goBytes x then k :: x :: xs else x :: insertKey k xs

/-- `slices.Sort(keys)`: Go compares strings byte by byte. -/
def sortKeys (keys : List String) : List String :=
  keys.foldr insertKey []

/-- The loop `for _, v := range vs` of `Values.Encode`, appending to `buf`. -/
def encodeValues (keyEscaped : String) : List String → String → String
  | [], buf => buf
  | v :: vs, buf =>
    encodeValues keyEscaped vs
      ((if buf = "" then buf else buf ++ "&") ++ keyEscaped ++ "=" ++ QueryEscape v)

/-- The loop `for _, k := range keys` of `Values.Encode`, appending to `buf`. -/
def encodeKeys (v : Values) : List String → String → String
  | [], buf => buf
  | k :: ks, buf => encodeKeys v ks (encodeValues (QueryEscape k) ((v.lookup k).getD []) buf)

/-- `url.Values.Encode`: `key=value` pairs joined by `&`, sorted by key. -/
def Values.Encode (v : Values) : String :=
  if v.length = 0 then "" else encodeKeys v (sortKeys (v.map Prod.fst)) ""

/-! ## order/order.go: notifications -/

def NewOrder : String :=
  "%s has created an order for the label %s. requesting %d delegations for %s"
def NewOrderLink : String := "@%s - https://%s?%s"
def OrderFulfilled : String := "%s has had order %s fulfilled."
def NewDelegation : String := "%s has delegated the label %s to %s (per order %s) for %s"

/-- One invocation of `notify`: the message and colour it was given, whether
the message was handed to a `Notifier` (`sent`), and the error it returned. -/
structure Call where
  msg : String
  color : String
  sent : Bool
  err : Option GoError
  deriving DecidableEq, Repr

/-- What the notification code acts on: the state of the notifier, and the
record of the invocations of `notify` so far, oldest first. -/
structure World (σ : Type) where
  sinkState : σ
  trace : List Call

/-- A world in which nothing has been notified yet. -/
def World.start {σ : Type} (s : σ) : World σ := { sinkState := s, trace := [] }

/-- Function `notify`: use the notifier if there is one, else return an error. -/
def notify {σ : Type} (o : Orderer σ) (msg color : String) (w : World σ) :
    Option GoError × World σ :=
  match o.Notifier with
  | some n =>
    let r := n.Notify w.sinkState msg color
    (r.1, { sinkState := r.2, trace := w.trace ++ [{ msg := msg, color := color, sent := true, err := r.1 }] })
  | none =>
    let err : Option GoError := some "no Notifier set to notify of order"
    (err, { w with trace := w.trace ++ [{ msg := msg, color := color, sent := false, err := err }] })

/-- The loops that build `labelList` and `nameList`: the first element is
appended as it is, every later one after the separator.  `i` is the loop index
and `acc` the text built so far. -/
def joinLoop (sep : String) : List String → Nat → String → String
  | [], _, acc => acc
  | x :: rest, i, acc => joinLoop sep rest (i + 1) (if i = 0 then acc ++ x else acc ++ (sep ++ x))

/-- The query string of the link sent to `owner`. -/
def linkQuery (duration orderNum : String) (uses : Int) (labelList nameList owner : String) :
    String :=
  Values.Encode
    [("delegator", [owner]), ("label", [labelList]), ("duration", [duration]),
     ("uses", [Itoa uses]), ("ordernum", [orderNum]), ("delegatee", [nameList])]

/-- The loop `for owner, hipchatName := range owners` of `NotifyNewOrder`,
with the final `return nil`. -/
def ownersLoop {σ : Type} (o : Orderer σ) (duration orderNum : String) (uses : Int)
    (labelList nameList : String) : List (String × String) → World σ → Option GoError × World σ
  | [], w => (none, w)
  | (owner, hipchatName) :: rest, w =>
    let queryParams := linkQuery duration orderNum uses labelList nameList owner
    let r := notify o (Sprintf NewOrderLink [Arg.str hipchatName, Arg.str o.RoHost, Arg.str queryParams])
      notifier.GreenBackground w
    match r.1 with
    | some err => (some err, r.2)
    | none => ownersLoop o duration orderNum uses labelList nameList rest r.2

/-- Method `(o *Orderer) NotifyNewOrder`. -/
def NotifyNewOrder {σ : Type} (o : Orderer σ) (duration orderNum : String)
    (names labels : List String) (uses : Int) (owners : List (String × String)) (w : World σ) :
    Option GoError × World σ :=
  let labelList := joinLoop "," labels 0 ""
  let nameList := joinLoop "," names 0 ""
  let n := Sprintf NewOrder [Arg.str nameList, Arg.str labelList, Arg.int uses, Arg.str duration]
  let r := notify o n notifier.RedBackground w
  match r.1 with
  | some err => (some err, r.2)
  | none => ownersLoop o duration orderNum uses labelList nameList owners r.2

/-- Method `(o *Orderer) NotifyDelegation`. -/
def NotifyDelegation {σ : Type} (o : Orderer σ) (delegator delegatee orderNum duration : String)
    (labels : List String) (w : World σ) : Option GoError × World σ :=
  let labelList := joinLoop ", " labels 0 ""
  let n := Sprintf NewDelegation
    [Arg.str delegator, Arg.str labelList, Arg.str delegatee, Arg.str orderNum, Arg.str duration]
  notify o n notifier.YellowBackground w

/-- Method `(o *Orderer) NotifyOrderFulfilled`. -/
def NotifyOrderFulfilled {σ : Type} (o : Orderer σ) (name orderNum : String) (w : World σ) :
    Option GoError × World σ :=
  let n := Sprintf OrderFulfilled [Arg.str name, Arg.str orderNum]
  notify o n notifier.PurpleBackground w

/-! ## Auxiliary notions for the notification theorems -/

/-- The invocations of `notify` in which the message reached a `Notifier`. -/
def sinkCalls (tr : List Call) : List Call :=
  tr.filter (fun c => c.sent)

/-- The invocations of `notify` that returned no error. -/
def succeeded (tr : List Call) : List Call :=
  tr.filter (fun c => c.err.isNone)

/-- Hand the messages to `notify` one after the other and stop at the first
error. -/
def sendAll {σ : Type} (o : Orderer σ) : List (String × String) → World σ →
    Option GoError × World σ
  | [], w => (none, w)
  | (msg, color) :: rest, w =>
    let r := notify o msg color w
    match r.1 with
    | some err => (some err, r.2)
    | none => sendAll o rest r.2

/-- The message and colour of the link that `NotifyNewOrder` builds for the
entry `p = (owner, hipchatName)` of `owners`. -/
def linkMessage {σ : Type} (o : Orderer σ) (duration orderNum : String) (uses : Int)
    (labelList nameList : String) (p : String × String) : String × String :=
  (Sprintf NewOrderLink
      [Arg.str p.2, Arg.str o.RoHost,
       Arg.str (linkQuery duration orderNum uses labelList nameList p.1)],
    notifier.GreenBackground)

/-- The messages `NotifyNewOrder` builds, in the order of the code: the
broadcast, then one link per entry of `owners`. -/
def newOrderMessages {σ : Type} (o : Orderer σ) (duration orderNum : String)
    (names labels : List String) (uses : Int) (owners : List (String × String)) :
    List (String × String) :=
  (Sprintf NewOrder
      [Arg.str (joinLoop "," names 0 ""), Arg.str (joinLoop "," labels 0 ""), Arg.int uses,
       Arg.str duration],
    notifier.RedBackground) ::
    owners.map (linkMessage o duration orderNum uses (joinLoop "," labels 0 "")
      (joinLoop "," names 0 ""))

/-- What a run that stops at the first error leaves behind: either no error
and one successful call per message, or an error `e`, returned by the last
call, after successful calls only. -/
def FailFast (msgs : List (String × String)) (r : Option GoError) (calls : List Call) : Prop :=
  (r = none ∧ calls.map (fun c => (c.msg, c.color)) = msgs ∧ ∀ c ∈ calls, c.err = none) ∨
  (∃ e good c, r = some e ∧ calls = good ++ [c] ∧ (∀ g ∈ good, g.err = none) ∧
    c.err = some e ∧ good.length < msgs.length ∧
    calls.map (fun c => (c.msg, c.color)) = msgs.take (good.length + 1))

/-! ## Examples used below -/

/-- An order for user `u` that requires the labels `a` and `b`. -/
def orderAB : Order :=
  { Creator := "c", Users := ["u"], Num := "k", TimeRequested := 0, DurationRequested := 0,
    Delegated := 0, OwnersDelegated := [], Owners := [], Labels := ["a", "b"] }

/-- The same order with its labels listed in the other order. -/
def orderBA : Order := { orderAB with Labels := ["b", "a"] }

/-- A registry holding one order under the key `k`, without notifier. -/
def registryOf (order : Order) : Orderer Unit :=
  { Orders := [("k", order)], Notifier := none, RoHost := "h", AlternateName := "HipchatName" }

/-- A notifier that accepts every message and counts them. -/
def okSink : Notifier Nat :=
  { Notify := fun s _ _ => (none, s + 1) }

/-- A notifier that counts the messages and fails on the second one. -/
def failSecond : Notifier Nat :=
  { Notify := fun s _ _ => (if s = 1 then some "sink failed" else none, s + 1) }

/-- The order of the end-to-end example, created by `alice`. -/
def exampleOrder : Order :=
  { Creator := "alice", Users := ["bob", "carol"], Num := "abcd1234", TimeRequested := 0,
    DurationRequested := 86400000000000, Delegated := 0, OwnersDelegated := [],
    Owners := ["dave"], Labels := ["prod-db"] }

/-- A registry on host `h` that stores the example order and uses `sink`. -/
def exampleOrderer (sink : Notifier Nat) : Orderer Nat :=
  { Orders := [("abcd1234", exampleOrder)], Notifier := some sink, RoHost := "h",
    AlternateName := "HipchatName" }

/-! ## order/order.go: CreateOrder and GenerateNum -/

/-- The zero value of `Order`, which the named result `ord` of `CreateOrder`
holds on entry. -/
def Order.zero : Order :=
  { Creator := "", Users := [], Num := "", TimeRequested := 0, DurationRequested := 0,
    Delegated := 0, OwnersDelegated := [], Owners := [], Labels := [] }

/-- Function `CreateOrder`: the assignments to the fields of `ord`, in the
order of the source. -/
def CreateOrder (name orderNum : String) (time duration : Int)
    (adminsDelegated contacts users labels : List String) (numDelegated : Int) : Order :=
  let ord := Order.zero
  let ord := { ord with Creator := name }
  let ord := { ord with Num := orderNum }
  let ord := { ord with Labels := labels }
  let ord := { ord with TimeRequested := time }
  let ord := { ord with DurationRequested := duration }
  let ord := { ord with OwnersDelegated := adminsDelegated }
  let ord := { ord with Owners := contacts }
  let ord := { ord with Delegated := numDelegated }
  let ord := { ord with Users := users }
  ord

/-- The digits `hextable` of `encoding/hex`. -/
def hextable : List Char := "0123456789abcdef".data

/-- The two digits `hextable[v>>4]`, `hextable[v&0x0f]` that `hex.Encode`
writes for the byte `v`. -/
def encodeHexByte (b : Nat) : List Char :=
  let v := b % 256
  [hextable.getD (v / 16) '0', hextable.getD (v % 16) '0']

/-- `hex.EncodeToString`. -/
def EncodeToString (src : List Nat) : String :=
  String.mk (src.flatMap encodeHexByte)

/-- `fromHexChar` of `encoding/hex`: the value of a hexadecimal digit. -/
def fromHexChar (c : Char) : Option Nat :=
  if '0' ≤ c ∧ c ≤ '9' then some (c.toNat - '0'.toNat)
  else if 'a' ≤ c ∧ c ≤ 'f' then some (c.toNat - 'a'.toNat + 10)
  else if 'A' ≤ c ∧ c ≤ 'F' then some (c.toNat - 'A'.toNat + 10)
  else none

/-- `hex.DecodeString` on the characters of its argument: pairs of digits
become bytes; a character that is no digit, or an odd length, is an error
(`none`). -/
def decodeHex : List Char → Option (List Nat)
  | [] => some []
  | [_] => none
  | p :: q :: rest =>
    match fromHexChar p, fromHexChar q, decodeHex rest with
    | some a, some b, some bytes => some ((a * 16 + b) :: bytes)
    | _, _, _ => none

/-- `hex.DecodeString`. -/
def DecodeString (s : String) : Option (List Nat) :=
  decodeHex s.data

/-- What the call `rand.Read(b)` of `GenerateNum` does, after the documentation
of `crypto/rand` (Go 1.24 and later): Read "never returns an error, and always
fills b entirely", and it "crashes the program irrecoverably" when the
randomness source fails.  So either the call returns and has stored a byte in
each of the 12 positions of `b`, or it does not return.  (Before Go 1.24
`rand.Read` reported a failure through its results `n` and `err`.) -/
inductive ReadOutcome where
  | filled (bytes : List Nat) (full : bytes.length = 12)
  | crashed

/-- The buffer `b` after `written` has been stored at its front. -/
def fillBuffer (b written : List Nat) : List Nat :=
  ((written.map fun v => v % 256) ++ b.drop written.length).take b.length

/-- Function `GenerateNum`, given what `rand.Read` does: a buffer of 12 zero
bytes is made and handed to `rand.Read`; when that call returns, its two
results are dropped and the buffer is returned in hexadecimal; when it crashes
the program, `GenerateNum` returns nothing (`none`). -/
def GenerateNum : ReadOutcome → Option String
  | ReadOutcome.filled bytes _ =>
    let b := List.replicate 12 0
    let b := fillBuffer b bytes
    some (EncodeToString b)
  | ReadOutcome.crashed => none

/-! ## The receiver as state

The methods of `*Orderer` once more, in state-passing form: the fields of the
`Orderer` behind the receiver are part of a store that every step takes and
hands on, and a notifier acts on the whole store, because in Go an
implementation of `Notifier` may hold a reference to the `Orderer` that calls
it. -/

/-- What a call of a method of `*Orderer` can reach: the fields of the
`Orderer` behind the receiver, and the state of the notifiers.  The interface
value in `Notifier` is `none` for nil and otherwise names an implementation. -/
structure Store (ι σ : Type) where
  Orders : List (String × Order)
  Notifier : Option ι
  RoHost : String
  AlternateName : String
  sinkState : σ

/-- The method `Notify` of every implementation of `Notifier`: it returns an
error or nil and may change whatever it can reach in the store. -/
abbrev Notifiers (ι σ : Type) := ι → Store ι σ → String → String → Option GoError × Store ι σ

/-- The fields of the `Orderer` in a store. -/
def Store.fields {ι σ : Type} (st : Store ι σ) :
    List (String × Order) × Option ι × String × String :=
  (st.Orders, st.Notifier, st.RoHost, st.AlternateName)

/-- Function `notify` on a store. -/
def notifyS {ι σ : Type} (impl : Notifiers ι σ) (msg color : String) (st : Store ι σ) :
    Option GoError × Store ι σ :=
  match st.Notifier with
  | some n => impl n st msg color
  | none => (some "no Notifier set to notify of order", st)

/-- The loop over `owners` of `NotifyNewOrder` on a store; `o.RoHost` is read
in every iteration. -/
def ownersLoopS {ι σ : Type} (impl : Notifiers ι σ) (duration orderNum : String) (uses : Int)
    (labelList nameList : String) :
    List (String × String) → Store ι σ → Option GoError × Store ι σ
  | [], st => (none, st)
  | (owner, hipchatName) :: rest, st =>
    let queryParams := linkQuery duration orderNum uses labelList nameList owner
    let r := notifyS impl
      (Sprintf NewOrderLink [Arg.str hipchatName, Arg.str st.RoHost, Arg.str queryParams])
      notifier.GreenBackground st
    match r.1 with
    | some err => (some err, r.2)
    | none => ownersLoopS impl duration orderNum uses labelList nameList rest r.2

/-- Method `NotifyNewOrder` on a store. -/
def NotifyNewOrderS {ι σ : Type} (impl : Notifiers ι σ) (duration orderNum : String)
    (names labels : List String) (uses : Int) (owners : List (String × String))
    (st : Store ι σ) : Option GoError × Store ι σ :=
  let labelList := joinLoop "," labels 0 ""
  let nameList := joinLoop "," names 0 ""
  let n := Sprintf NewOrder [Arg.str nameList, Arg.str labelList, Arg.int uses, Arg.str duration]
  let r := notifyS impl n notifier.RedBackground st
  match r.1 with
  | some err => (some err, r.2)
  | none => ownersLoopS impl duration orderNum uses labelList nameList owners r.2

/-- Method `NotifyDelegation` on a store. -/
def NotifyDelegationS {ι σ : Type} (impl : Notifiers ι σ)
    (delegator delegatee orderNum duration : String) (labels : List String) (st : Store ι σ) :
    Option GoError × Store ι σ :=
  let labelList := joinLoop ", " labels 0 ""
  let n := Sprintf NewDelegation
    [Arg.str delegator, Arg.str labelList, Arg.str delegatee, Arg.str orderNum, Arg.str duration]
  notifyS impl n notifier.YellowBackground st

/-- Method `NotifyOrderFulfilled` on a store. -/
def NotifyOrderFulfilledS {ι σ : Type} (impl : Notifiers ι σ) (name orderNum : String)
    (st : Store ι σ) : Option GoError × Store ι σ :=
  let n := Sprintf OrderFulfilled [Arg.str name, Arg.str orderNum]
  notifyS impl n notifier.PurpleBackground st

/-- The loop over `o.Orders` of `FindOrder` on a store: the entries that the
`range` loop visits are those of the map on entry, and every iteration hands
the store on. -/
def findLoopS {ι σ : Type} (user : String) (labels : List String) :
    List (String × Order) → Store ι σ → (String × Bool) × Store ι σ
  | [], st => (("", false), st)
  | (key, order) :: rest, st =>
    let foundLabel := false
    let foundUser := false
    let foundUser := scanUsers user order.Users foundUser
    if !foundUser then findLoopS user labels rest st
    else
      let foundLabel := scanOrderLabels labels order.Labels foundLabel
      if !foundLabel then findLoopS user labels rest st
      else ((key, true), st)

/-- Method `FindOrder` on a store. -/
def FindOrderS {ι σ : Type} (user : String) (labels : List String) (st : Store ι σ) :
    (String × Bool) × Store ι σ :=
  findLoopS user labels st.Orders st

/-- A notifier without reference to the `Orderer`, as an implementation on the
store: it acts on its own state only. -/
def detached {ι σ : Type} (n : ι → Notifier σ) : Notifiers ι σ :=
  fun i st msg color =>
    ((((n i).Notify st.sinkState msg color).1),
      { st with sinkState := ((n i).Notify st.sinkState msg color).2 })

/-- The `Orderer` that the fields of a store make up, when the notifiers have
no reference to it. -/
def Store.toOrderer {ι σ : Type} (n : ι → RedOctober.Notifier σ) (st : Store ι σ) :
    Orderer σ :=
  { Orders := st.Orders, Notifier := st.Notifier.map n, RoHost := st.RoHost,
    AlternateName := st.AlternateName }

/-- A notifier that holds a reference to the `Orderer` and, when notified,
removes every order from its map. -/
def forgetful : Notifiers Unit Nat :=
  fun _ st _ _ => (none, { st with Orders := [], sinkState := st.sinkState + 1 })

/-- A store with the example order, whose notifier is the one implementation
there is. -/
def exampleStore : Store Unit Nat :=
  { Orders := [("abcd1234", exampleOrder)], Notifier := some (), RoHost := "h",
    AlternateName := "HipchatName", sinkState := 0 }

/-! ## Joining, in the words of the specification -/

/-- The elements of a list joined with a separator: nothing for the empty
list, the element itself for a single element, and otherwise the first
element, the separator, and the rest joined. -/
def joinedWith (sep : String) : List String → String
  | [] => ""
  | [x] => x
  | x :: y :: rest => x ++ sep ++ joinedWith sep (y :: rest)

/-- Messages with their colour hints replaced by `f`. -/
def recolour (f : String → String) (msgs : List (String × String)) : List (String × String) :=
  msgs.map fun p => (p.1, f p.2)

/-- What an invocation of `notify` was about apart from the colour hint. -/
def Call.content (c : Call) : String × Bool × Option GoError :=
  (c.msg, c.sent, c.err)

/-- A notifier that fails on every message. -/
def failSink : Notifier Nat :=
  { Notify := fun s _ _ => (some "sink failed", s + 1) }

/-! ## notifier/slack.go -/

/-- Struct `SlackClient`. -/
structure SlackClient where
  Url : String
  deriving DecidableEq, Repr

/-- `NewSlackClient`. -/
def NewSlackClient (url : String) : SlackClient := { Url := url }

/-- An `http.Request` as far as `Notify` deals with it. -/
structure Request where
  method : String
  url : String
  body : String
  header : List (String × String)
  deriving DecidableEq, Repr

/-- The library calls of `SlackClient.Notify`, which are not part of the
repository, as parameters: `json.Marshal` of the map with the one key `text`,
`http.NewRequest`, `Client.Do` (which acts on a network in state `ν` and gives
the body of the response or an error) and `ioutil.ReadAll` of that body. -/
structure HttpLib (ν : Type) where
  Marshal : String → Except GoError String
  NewRequest : String → String → String → Except GoError Request
  Do : ν → Request → Except GoError String × ν
  ReadAll : String → Except GoError String

/-- What has happened on the side of the network: its state, the requests that
were built and the requests that were sent, oldest first, and the lines
written with `log.Printf`. -/
structure Net (ν : Type) where
  state : ν
  built : List Request
  sent : List Request
  logged : List String

/-- Method `(slack *SlackClient) Notify`. -/
def SlackClient.Notify {ν : Type} (lib : HttpLib ν) (slack : SlackClient) (msg _color : String)
    (net : Net ν) : Option GoError × Net ν :=
  if slack.Url = "" then (some "URL unset", net)
  else
    match lib.Marshal msg with
    | Except.error err => (some err, net)
    | Except.ok body =>
      match lib.NewRequest "POST" slack.Url body with
      | Except.error err => (some err, net)
      | Except.ok req =>
        let net := { net with built := net.built ++ [req] }
        let req := { req with header := req.header ++ [("Content-Type", "application/json")] }
        let r := lib.Do net.state req
        let net := { net with state := r.2, sent := net.sent ++ [req] }
        match r.1 with
        | Except.error err =>
          (some err,
            { net with logged := net.logged ++
                [Sprintf "Could not post to Slack for the reason %s" [Arg.str err]] })
        | Except.ok respBody =>
          match lib.ReadAll respBody with
          | Except.error err =>
            (some err,
              { net with logged := net.logged ++
                  [Sprintf "Could not post to Slack for the reason %s" [Arg.str err]] })
          | Except.ok _ => (none, net)

/-- A `SlackClient` as a `Notifier`, the interface it implements. -/
def SlackClient.asNotifier {ν : Type} (lib : HttpLib ν) (slack : SlackClient) :
    Notifier (Net ν) :=
  { Notify := fun net msg color => SlackClient.Notify lib slack msg color net }

/-- A library in which every call succeeds; the network counts the requests. -/
def okLib : HttpLib Nat :=
  { Marshal := fun msg => Except.ok ("\x7b\"text\":\"" ++ msg ++ "\"\x7d"),
    NewRequest := fun method url body =>
      Except.ok { method := method, url := url, body := body, header := [] },
    Do := fun st _ => (Except.ok "ok", st + 1),
    ReadAll := fun body => Except.ok body }

/-- A network on which nothing has happened yet. -/
def Net.start {ν : Type} (st : ν) : Net ν :=
  { state := st, built := [], sent := [], logged := [] }

/-! ## Query decoding (`net/url`) -/

/-- `ishex` of `net/url`, on a byte. -/
def ishex (c : Nat) : Bool :=
  (48 ≤ c ∧ c ≤ 57) ∨ (97 ≤ c ∧ c ≤ 102) ∨ (65 ≤ c ∧ c ≤ 70)

/-- `unhex` of `net/url`, on a byte. -/
def unhex (c : Nat) : Nat :=
  if 48 ≤ c ∧ c ≤ 57 then c - 48
  else if 97 ≤ c ∧ c ≤ 102 then c - 97 + 10
  else if 65 ≤ c ∧ c ≤ 70 then c - 65 + 10
  else 0

/-- `unescape(s, encodeQueryComponent)` of `net/url` on the bytes of `s`: `%`
with two hexadecimal digits becomes the byte they denote, `+` becomes a space,
every other byte stays; a `%` that is not followed by two hexadecimal digits
makes the whole call fail (`none`). -/
def unescapeBytes : List Nat → Option (List Nat)
  | [] => some []
  | c :: rest =>
    if c = 37 then
      match rest with
      | hi :: lo :: rest2 =>
        if ishex hi && ishex lo then
          (unescapeBytes rest2).map fun bytes => (unhex hi * 16 + unhex lo) % 256 :: bytes
        else none
      | _ => none
    else if c = 43 then (unescapeBytes rest).map fun bytes => 32 :: bytes
    else (unescapeBytes rest).map fun bytes => c :: bytes

/-- `url.QueryUnescape`: the bytes of the decoded string, or `none` for an
error. -/
def QueryUnescape (s : String) : Option (List Nat) :=
  unescapeBytes (goBytes s)
/-- The bytes of one character. -/
def charBytes (ch : Char) : List Nat :=
  (String.utf8EncodeChar ch).map UInt8.toNat

/-- The bytes of the escaped form of one byte. -/
def escapeCodes (b : Nat) : List Nat :=
  (escapeByte b).flatMap charBytes

/-- The byte of the digit `upperhex[i]`. -/
def upperCode (i : Nat) : Nat :=
  (upperhex.getD i '0').toNat

/-- A notifier that counts the messages and fails on every message whose
colour hint is `red`. -/
def redFailSink : Notifier Nat :=
  { Notify := fun s _ color => (if color = "red" then some "no red" else none, s + 1) }


/-! ## Lemmas on the loops of FindOrder -/

theorem scanUsers_eq (user : String) (users : List String) (found : Bool) :
    scanUsers user users found = (found || decide (user ∈ users)) := by
  induction users generalizing found with
  | nil => simp [scanUsers]
  | cons x xs ih =>
    rw [scanUsers, ih]
    by_cases h : x = user
    · simp [h]
    · have h2 : ¬ user = x := fun e => h e.symm
      simp [h, h2]

theorem scanCallerLabels_eq (ol : String) (labels : List String) (found : Bool) :
    scanCallerLabels ol labels found = (found || decide (ol ∈ labels)) := by
  induction labels generalizing found with
  | nil => simp [scanCallerLabels]
  | cons x xs ih =>
    rw [scanCallerLabels, ih]
    by_cases h : x = ol
    · simp [h]
    · have h2 : ¬ ol = x := fun e => h e.symm
      simp [h, h2]

/-- After the outer label loop `foundLabel` only reflects the last order label. -/
theorem scanOrderLabels_eq (labels orderLabels : List String) (found : Bool) :
    scanOrderLabels labels orderLabels found =
      match orderLabels.getLast? with
      | none => found
      | some ol => decide (ol ∈ labels) := by
  induction orderLabels generalizing found with
  | nil => simp [scanOrderLabels]
  | cons x xs ih =>
    rw [scanOrderLabels, ih, scanCallerLabels_eq]
    cases xs with
    | nil => simp
    | cons y ys =>
      simp only [List.getLast?_cons_cons]
      rw [List.getLast?_eq_getLast _ (List.cons_ne_nil y ys)]

theorem findLoop_cons (user : String) (labels : List String) (key : String) (order : Order)
    (rest : List (String × Order)) :
    findLoop user labels ((key, order) :: rest) =
      if accepts user labels order then (key, true) else findLoop user labels rest := by
  simp only [findLoop, accepts]
  split_ifs <;> simp_all

theorem findLoop_found_iff (user : String) (labels : List String) (orders : List (String × Order)) :
    (findLoop user labels orders).2 = true ↔ ∃ p ∈ orders, accepts user labels p.2 = true := by
  induction orders with
  | nil => simp [findLoop]
  | cons p rest ih =>
    obtain ⟨key, order⟩ := p
    rw [findLoop_cons]
    by_cases h : accepts user labels order = true
    · simp [h]
    · simp [h, ih]

theorem findLoop_found_mem (user : String) (labels : List String) (orders : List (String × Order))
    (h : (findLoop user labels orders).2 = true) :
    ∃ order, ((findLoop user labels orders).1, order) ∈ orders ∧ accepts user labels order = true := by
  induction orders with
  | nil => simp [findLoop] at h
  | cons p rest ih =>
    obtain ⟨key, order⟩ := p
    rw [findLoop_cons] at h ⊢
    by_cases hacc : accepts user labels order = true
    · simp only [hacc, if_true]
      exact ⟨order, List.mem_cons_self _ _, hacc⟩
    · simp only [hacc] at h ⊢
      obtain ⟨ord, hmem, ha⟩ := ih h
      exact ⟨ord, List.mem_cons_of_mem _ hmem, ha⟩

theorem accepts_iff (user : String) (labels : List String) (order : Order) :
    accepts user labels order = true ↔
      user ∈ order.Users ∧ ∃ ol, order.Labels.getLast? = some ol ∧ ol ∈ labels := by
  rw [accepts, scanUsers_eq, scanOrderLabels_eq]
  cases order.Labels.getLast? with
  | none => simp
  | some ol => simp

/-! ## FindOrder: claims -/

/-- C1 (the code departs from the claim): the registry holds the single order
`k` for user `u` with required labels `a` and `b`; the caller presents only
`b`, so the required label `a` is missing, and `FindOrder` still returns
`("k", true)`. -/
theorem FindOrder_matches_with_missing_label :
    FindOrder (registryOf orderAB) "u" ["b"] = ("k", true) ∧
      (registryOf orderAB).Orders = [("k", orderAB)] ∧
      "u" ∈ orderAB.Users ∧ "a" ∈ orderAB.Labels ∧ "a" ∉ ["b"] := by
  decide

/-- C2: if a stored order has non-empty `Labels`, lists `user` among its
`Users` and has every one of its labels among `callerLabels`, then `FindOrder`
reports found; when it is the only order of the registry, its key is returned. -/
theorem FindOrder_finds_satisfied_order {σ : Type} (o : Orderer σ) (user : String)
    (callerLabels : List String) (key : String) (order : Order)
    (hmem : (key, order) ∈ o.Orders) (hne : order.Labels ≠ [])
    (huser : user ∈ order.Users) (hlabels : ∀ l ∈ order.Labels, l ∈ callerLabels) :
    (FindOrder o user callerLabels).2 = true ∧
      (o.Orders = [(key, order)] → FindOrder o user callerLabels = (key, true)) := by
  have hacc : accepts user callerLabels order = true := by
    rw [accepts_iff]
    refine ⟨huser, order.Labels.getLast hne, List.getLast?_eq_getLast _ hne, ?_⟩
    exact hlabels _ (List.getLast_mem hne)
  constructor
  · rw [FindOrder, findLoop_found_iff]
    exact ⟨(key, order), hmem, hacc⟩
  · intro hsingle
    rw [FindOrder, hsingle, findLoop_cons, if_pos hacc]

/-- The hypotheses of C2 hold for the order with labels `a`, `b` and the caller
labels `b`, `c`, `a`. -/
theorem FindOrder_finds_satisfied_order_witness :
    (FindOrder (registryOf orderAB) "u" ["b", "c", "a"]).2 = true ∧
      FindOrder (registryOf orderAB) "u" ["b", "c", "a"] = ("k", true) :=
  have h := FindOrder_finds_satisfied_order (registryOf orderAB) "u" ["b", "c", "a"] "k" orderAB
    (by decide) (by decide) (by decide) (by decide)
  ⟨h.1, h.2 rfl⟩

/-- C3 (the code departs from the claim): for the caller labels `["a"]` the
order with labels `["a", "b"]` is not found, while the same order with its
labels permuted to `["b", "a"]` is found. -/
theorem FindOrder_depends_on_label_order :
    orderBA.Labels.Perm orderAB.Labels ∧
      (FindOrder (registryOf orderAB) "u" ["a"]).2 = false ∧
      (FindOrder (registryOf orderBA) "u" ["a"]).2 = true := by
  refine ⟨List.Perm.swap _ _ _, by decide, by decide⟩

/-- C4: extra caller labels never disqualify a match: if `FindOrder` reports
found for the caller labels `L` and every element of `L` occurs in `L'`, then
it reports found for `L'`. -/
theorem FindOrder_mono_caller_labels {σ : Type} (o : Orderer σ) (user : String)
    (L L' : List String) (hfound : (FindOrder o user L).2 = true) (hsub : ∀ l ∈ L, l ∈ L') :
    (FindOrder o user L').2 = true := by
  rw [FindOrder, findLoop_found_iff] at hfound ⊢
  obtain ⟨p, hp, hacc⟩ := hfound
  refine ⟨p, hp, ?_⟩
  rw [accepts_iff] at hacc ⊢
  obtain ⟨hu, ol, hlast, hol⟩ := hacc
  exact ⟨hu, ol, hlast, hsub ol hol⟩

/-- The hypotheses of C4 hold for the caller labels `b` and `x`, `b`, `y`. -/
theorem FindOrder_mono_caller_labels_witness :
    (FindOrder (registryOf orderAB) "u" ["b"]).2 = true ∧
      (FindOrder (registryOf orderAB) "u" ["x", "b", "y"]).2 = true :=
  ⟨by decide,
    FindOrder_mono_caller_labels (registryOf orderAB) "u" ["b"] ["x", "b", "y"] (by decide)
      (by decide)⟩

/-- C5: on a registry without orders, and so on the one `NewOrderer` returns
for any host and notifier, `FindOrder` returns `("", false)` for every user
and every label list. -/
theorem FindOrder_empty_registry {σ : Type} (roHost : String) (notifier : Option (Notifier σ))
    (alternateName user : String) (labels : List String) :
    (NewOrderer roHost notifier).Orders = [] ∧
      FindOrder (NewOrderer roHost notifier) user labels = ("", false) ∧
      FindOrder ({ Orders := [], Notifier := notifier, RoHost := roHost,
                   AlternateName := alternateName } : Orderer σ) user labels = ("", false) :=
  ⟨rfl, rfl, rfl⟩

/-! ## Lemmas on the library functions -/

theorem parseFormat_NewOrder :
    parseFormat NewOrder.data =
      [Piece.verb 's', Piece.lit " has created an order for the label ", Piece.verb 's',
       Piece.lit ". requesting ", Piece.verb 'd', Piece.lit " delegations for ",
       Piece.verb 's'] := by
  decide

theorem parseFormat_NewOrderLink :
    parseFormat NewOrderLink.data =
      [Piece.lit "@", Piece.verb 's', Piece.lit " - https://", Piece.verb 's', Piece.lit "?",
       Piece.verb 's'] := by
  decide

theorem Sprintf_NewOrder (nameList labelList : String) (uses : Int) (duration : String) :
    Sprintf NewOrder [Arg.str nameList, Arg.str labelList, Arg.int uses, Arg.str duration] =
      nameList ++ " has created an order for the label " ++ labelList ++ ". requesting " ++
        Itoa uses ++ " delegations for " ++ duration := by
  rw [Sprintf, parseFormat_NewOrder]
  simp [render, renderVerb, String.append_assoc]

theorem Sprintf_NewOrderLink (hipchatName roHost queryParams : String) :
    Sprintf NewOrderLink [Arg.str hipchatName, Arg.str roHost, Arg.str queryParams] =
      "@" ++ hipchatName ++ " - https://" ++ roHost ++ "?" ++ queryParams := by
  rw [Sprintf, parseFormat_NewOrderLink]
  simp [render, renderVerb, String.append_assoc]

theorem append_ne_empty (s t : String) (h : s ≠ "") : s ++ t ≠ "" := by
  intro hst
  apply h
  have hd := congrArg String.data hst
  rw [String.data_append] at hd
  apply String.ext
  exact (List.append_eq_nil.mp hd).1

theorem joinLoop_succ (sep : String) (xs : List String) (i : Nat) (acc : String) :
    joinLoop sep xs (i + 1) acc = String.intercalate.go acc sep xs := by
  induction xs generalizing i acc with
  | nil => simp [joinLoop, String.intercalate.go]
  | cons x rest ih =>
    rw [joinLoop, ih]
    simp [String.intercalate.go, String.append_assoc]

/-- The joining loops compute the elements joined by the separator. -/
theorem joinLoop_eq_intercalate (sep : String) (xs : List String) :
    joinLoop sep xs 0 "" = sep.intercalate xs := by
  cases xs with
  | nil => simp [joinLoop, String.intercalate]
  | cons x rest =>
    rw [joinLoop, joinLoop_succ]
    simp [String.intercalate]

theorem encodeValues_single_empty (k v : String) :
    encodeValues k [v] "" = k ++ "=" ++ QueryEscape v := by
  simp [encodeValues]

theorem encodeValues_single (k v buf : String) (h : buf ≠ "") :
    encodeValues k [v] buf = buf ++ "&" ++ k ++ "=" ++ QueryEscape v := by
  simp [encodeValues, h]

theorem linkQuery_eq (duration orderNum : String) (uses : Int)
    (labelList nameList owner : String) :
    linkQuery duration orderNum uses labelList nameList owner =
      "delegatee=" ++ QueryEscape nameList ++ "&delegator=" ++ QueryEscape owner ++
        "&duration=" ++ QueryEscape duration ++ "&label=" ++ QueryEscape labelList ++
        "&ordernum=" ++ QueryEscape orderNum ++ "&uses=" ++ QueryEscape (Itoa uses) := by
  have hsort : sortKeys ["delegator", "label", "duration", "uses", "ordernum", "delegatee"] =
      ["delegatee", "delegator", "duration", "label", "ordernum", "uses"] := by decide
  have e1 : QueryEscape "delegatee" = "delegatee" := by decide
  have e2 : QueryEscape "delegator" = "delegator" := by decide
  have e3 : QueryEscape "duration" = "duration" := by decide
  have e4 : QueryEscape "label" = "label" := by decide
  have e5 : QueryEscape "ordernum" = "ordernum" := by decide
  have e6 : QueryEscape "uses" = "uses" := by decide
  have h0 : ("delegatee" : String) ≠ "" := by decide
  have h1 := append_ne_empty _ ("=" ++ QueryEscape nameList) h0
  rw [← String.append_assoc] at h1
  have h2 := append_ne_empty _ ("&" ++ "delegator" ++ "=" ++ QueryEscape owner) h1
  simp only [← String.append_assoc] at h2
  have h3 := append_ne_empty _ ("&" ++ "duration" ++ "=" ++ QueryEscape duration) h2
  simp only [← String.append_assoc] at h3
  have h4 := append_ne_empty _ ("&" ++ "label" ++ "=" ++ QueryEscape labelList) h3
  simp only [← String.append_assoc] at h4
  have h5 := append_ne_empty _ ("&" ++ "ordernum" ++ "=" ++ QueryEscape orderNum) h4
  simp only [← String.append_assoc] at h5
  have l1 : List.lookup "delegatee" [("delegator", [owner]), ("label", [labelList]),
      ("duration", [duration]), ("uses", [Itoa uses]), ("ordernum", [orderNum]),
      ("delegatee", [nameList])] = some [nameList] := rfl
  have l2 : List.lookup "delegator" [("delegator", [owner]), ("label", [labelList]),
      ("duration", [duration]), ("uses", [Itoa uses]), ("ordernum", [orderNum]),
      ("delegatee", [nameList])] = some [owner] := rfl
  have l3 : List.lookup "duration" [("delegator", [owner]), ("label", [labelList]),
      ("duration", [duration]), ("uses", [Itoa uses]), ("ordernum", [orderNum]),
      ("delegatee", [nameList])] = some [duration] := rfl
  have l4 : List.lookup "label" [("delegator", [owner]), ("label", [labelList]),
      ("duration", [duration]), ("uses", [Itoa uses]), ("ordernum", [orderNum]),
      ("delegatee", [nameList])] = some [labelList] := rfl
  have l5 : List.lookup "ordernum" [("delegator", [owner]), ("label", [labelList]),
      ("duration", [duration]), ("uses", [Itoa uses]), ("ordernum", [orderNum]),
      ("delegatee", [nameList])] = some [orderNum] := rfl
  have l6 : List.lookup "uses" [("delegator", [owner]), ("label", [labelList]),
      ("duration", [duration]), ("uses", [Itoa uses]), ("ordernum", [orderNum]),
      ("delegatee", [nameList])] = some [Itoa uses] := rfl
  simp only [linkQuery, Values.Encode, List.map, hsort, encodeKeys, l1, l2, l3, l4, l5, l6,
    List.length, Option.getD, e1, e2, e3, e4, e5, e6]
  rw [if_neg (by decide)]
  rw [encodeValues_single_empty, encodeValues_single _ _ _ h1, encodeValues_single _ _ _ h2,
    encodeValues_single _ _ _ h3, encodeValues_single _ _ _ h4, encodeValues_single _ _ _ h5]
  simp only [String.append_assoc]
  rfl

/-! ## Lemmas on the notification code -/

theorem notify_fst_of_some {σ : Type} (o : Orderer σ) (n : Notifier σ) (hn : o.Notifier = some n)
    (msg color : String) (w : World σ) :
    (notify o msg color w).1 = (n.Notify w.sinkState msg color).1 := by
  simp [notify, hn]

theorem notify_of_none {σ : Type} (o : Orderer σ) (hn : o.Notifier = none)
    (msg color : String) (w : World σ) :
    notify o msg color w =
      (some "no Notifier set to notify of order",
        { w with trace := w.trace ++ [{ msg := msg, color := color, sent := false,
                                        err := some "no Notifier set to notify of order" }] }) := by
  simp [notify, hn]

/-- Every invocation of `notify` adds one record to the trace. -/
theorem notify_trace {σ : Type} (o : Orderer σ) (msg color : String) (w : World σ) :
    (notify o msg color w).2.trace =
      w.trace ++ [{ msg := msg, color := color, sent := o.Notifier.isSome,
                    err := (notify o msg color w).1 }] := by
  unfold notify
  cases o.Notifier <;> simp

theorem ownersLoop_eq_sendAll {σ : Type} (o : Orderer σ) (duration orderNum : String)
    (uses : Int) (labelList nameList : String) (owners : List (String × String)) (w : World σ) :
    ownersLoop o duration orderNum uses labelList nameList owners w =
      sendAll o (owners.map (linkMessage o duration orderNum uses labelList nameList)) w := by
  induction owners generalizing w with
  | nil => simp [ownersLoop, sendAll]
  | cons p rest ih =>
    obtain ⟨owner, hipchatName⟩ := p
    simp only [ownersLoop, List.map, sendAll, linkMessage]
    cases h : (notify o (Sprintf NewOrderLink
        [Arg.str hipchatName, Arg.str o.RoHost,
         Arg.str (linkQuery duration orderNum uses labelList nameList owner)])
        notifier.GreenBackground w).1 with
    | none => simp only [ih, linkMessage]
    | some err => rfl

/-- `NotifyNewOrder` hands its messages to `notify` in order and stops at the
first error. -/
theorem NotifyNewOrder_eq_sendAll {σ : Type} (o : Orderer σ) (duration orderNum : String)
    (names labels : List String) (uses : Int) (owners : List (String × String)) (w : World σ) :
    NotifyNewOrder o duration orderNum names labels uses owners w =
      sendAll o (newOrderMessages o duration orderNum names labels uses owners) w := by
  simp only [NotifyNewOrder, newOrderMessages, sendAll, ownersLoop_eq_sendAll]

theorem sendAll_spec {σ : Type} (o : Orderer σ) (msgs : List (String × String)) (w : World σ) :
    ∃ calls, (sendAll o msgs w).2.trace = w.trace ++ calls ∧
      FailFast msgs (sendAll o msgs w).1 calls ∧
      ∀ c ∈ calls, c.sent = o.Notifier.isSome := by
  induction msgs generalizing w with
  | nil =>
    refine ⟨[], by simp [sendAll], Or.inl ?_, by simp⟩
    simp [sendAll]
  | cons m rest ih =>
    obtain ⟨msg, color⟩ := m
    have htr := notify_trace o msg color w
    simp only [sendAll]
    cases h : (notify o msg color w).1 with
    | some err =>
      rw [h] at htr
      refine ⟨[{ msg := msg, color := color, sent := o.Notifier.isSome, err := some err }],
        htr, Or.inr ⟨err, [], _, rfl, rfl, by simp, rfl, by simp, by simp⟩, by simp⟩
    | none =>
      rw [h] at htr
      obtain ⟨calls, hcalls, hff, hsent⟩ := ih (notify o msg color w).2
      refine ⟨{ msg := msg, color := color, sent := o.Notifier.isSome, err := none } :: calls,
        ?_, ?_, ?_⟩
      · show (sendAll o rest (notify o msg color w).2).2.trace = _
        rw [hcalls, htr]
        simp
      · show FailFast _ (sendAll o rest (notify o msg color w).2).1 _
        rcases hff with ⟨hr, hmap, hall⟩ | ⟨e, good, c, hr, hc, hgood, hce, hlen, hmap⟩
        · refine Or.inl ⟨hr, by simp [hmap], ?_⟩
          intro c hc
          rcases List.mem_cons.mp hc with rfl | hc
          · rfl
          · exact hall c hc
        · refine Or.inr ⟨e, Call.mk msg color o.Notifier.isSome none :: good, c, hr,
            by simp [hc], ?_, hce, by simpa using hlen, ?_⟩
          · intro g hg
            rcases List.mem_cons.mp hg with rfl | hg
            · rfl
            · exact hgood g hg
          · simp [hmap]
      · intro c hc
        rcases List.mem_cons.mp hc with rfl | hc
        · rfl
        · exact hsent c hc

/-- The trace of a run of `NotifyNewOrder` from a fresh world. -/
theorem NotifyNewOrder_spec {σ : Type} (o : Orderer σ) (duration orderNum : String)
    (names labels : List String) (uses : Int) (owners : List (String × String)) (s : σ) :
    FailFast (newOrderMessages o duration orderNum names labels uses owners)
        (NotifyNewOrder o duration orderNum names labels uses owners (World.start s)).1
        (NotifyNewOrder o duration orderNum names labels uses owners (World.start s)).2.trace ∧
      ∀ c ∈ (NotifyNewOrder o duration orderNum names labels uses owners (World.start s)).2.trace,
        c.sent = o.Notifier.isSome := by
  rw [NotifyNewOrder_eq_sendAll]
  obtain ⟨calls, htr, hff, hsent⟩ :=
    sendAll_spec o (newOrderMessages o duration orderNum names labels uses owners) (World.start s)
  have htr2 : (sendAll o (newOrderMessages o duration orderNum names labels uses owners)
      (World.start s)).2.trace = calls := by
    rw [htr]
    simp [World.start]
  rw [htr2]
  exact ⟨hff, hsent⟩

theorem sinkCalls_eq_self (tr : List Call) (h : ∀ c ∈ tr, c.sent = true) : sinkCalls tr = tr := by
  rw [sinkCalls, List.filter_eq_self]
  exact h

theorem succeeded_append_failed (good : List Call) (c : Call) (e : GoError)
    (hgood : ∀ g ∈ good, g.err = none) (hc : c.err = some e) :
    succeeded (good ++ [c]) = good := by
  have h1 : List.filter (fun c => c.err.isNone) good = good := by
    rw [List.filter_eq_self]
    intro g hg
    simp [hgood g hg]
  simp [succeeded, List.filter_append, h1, hc]

/-- In a fail-fast run a failed call is the last one, and its error is the
one returned. -/
theorem FailFast_failed_is_last (msgs : List (String × String)) (r : Option GoError)
    (calls : List Call) (hff : FailFast msgs r calls) (k : Nat) (c : Call) (e : GoError)
    (hk : 1 ≤ k) (hkth : calls[k - 1]? = some c) (hfail : c.err = some e) :
    calls.length = k ∧ (succeeded calls).length = k - 1 ∧ k ≤ msgs.length ∧ r = some e := by
  rcases hff with ⟨_, _, hall⟩ | ⟨e0, good, c0, hr, hcalls, hgood, hce, hlen, _⟩
  · have hmem : c ∈ calls := List.getElem?_mem hkth
    rw [hall c hmem] at hfail
    exact absurd hfail (by simp)
  · subst hcalls
    have hlt : k - 1 < (good ++ [c0]).length := by
      by_contra hcon
      rw [List.getElem?_eq_none (by omega)] at hkth
      exact absurd hkth (by simp)
    simp only [List.length_append, List.length_singleton] at hlt
    by_cases hin : k - 1 < good.length
    · rw [List.getElem?_append_left hin] at hkth
      have hmem : c ∈ good := List.getElem?_mem hkth
      rw [hgood c hmem] at hfail
      exact absurd hfail (by simp)
    · have hkeq : k - 1 = good.length := by omega
      rw [hkeq, List.getElem?_append_right (le_refl _)] at hkth
      simp only [Nat.sub_self, List.getElem?_cons_zero, Option.some.injEq] at hkth
      subst hkth
      rw [hce] at hfail
      refine ⟨by simp; omega, ?_, by omega, ?_⟩
      · rw [succeeded_append_failed good c0 e0 hgood hce]
        omega
      · rw [hr, hfail]

/-! ## Notifications: claims -/

/-- C6: `NotifyNewOrder` is fail-fast.  With a notifier configured, if the
`k`-th call of the notifier fails with error `e` (it need not be assumed to be
the first failure: no call follows a failed one), then exactly `k` calls of
the notifier were made (and `notify` was invoked no more often than that, so
no further owner was attempted), exactly `k - 1` of them succeeded, `k` is at
most one more than the number of owners, and `NotifyNewOrder` returns `e`. -/
theorem NotifyNewOrder_fail_fast {σ : Type} (o : Orderer σ) (n : Notifier σ)
    (hn : o.Notifier = some n) (duration orderNum : String) (names labels : List String)
    (uses : Int) (owners : List (String × String)) (s : σ) (k : Nat) (c : Call) (e : GoError)
    (hk : 1 ≤ k)
    (hkth : (sinkCalls (NotifyNewOrder o duration orderNum names labels uses owners
      (World.start s)).2.trace)[k - 1]? = some c)
    (hfail : c.err = some e) :
    (sinkCalls (NotifyNewOrder o duration orderNum names labels uses owners
        (World.start s)).2.trace).length = k ∧
      (NotifyNewOrder o duration orderNum names labels uses owners
        (World.start s)).2.trace.length = k ∧
      (succeeded (sinkCalls (NotifyNewOrder o duration orderNum names labels uses owners
        (World.start s)).2.trace)).length = k - 1 ∧
      k ≤ 1 + owners.length ∧
      (NotifyNewOrder o duration orderNum names labels uses owners (World.start s)).1 = some e := by
  obtain ⟨hff, hsent⟩ := NotifyNewOrder_spec o duration orderNum names labels uses owners s
  have hall : sinkCalls (NotifyNewOrder o duration orderNum names labels uses owners
      (World.start s)).2.trace =
      (NotifyNewOrder o duration orderNum names labels uses owners (World.start s)).2.trace := by
    apply sinkCalls_eq_self
    intro c hc
    rw [hsent c hc, hn]
    rfl
  rw [hall] at hkth ⊢
  obtain ⟨h1, h2, h3, h4⟩ := FailFast_failed_is_last _ _ _ hff k c e hk hkth hfail
  refine ⟨h1, h1, h2, ?_, h4⟩
  simpa [newOrderMessages, Nat.add_comm] using h3

/-- The hypotheses of C6 hold for two owners and a notifier that fails on its
second call: one delivery succeeded and no third call is made. -/
theorem NotifyNewOrder_fail_fast_witness :
    (sinkCalls (NotifyNewOrder (exampleOrderer failSecond) "24h" "abcd1234" ["bob", "carol"]
        ["prod-db"] 2 [("A", "dispA"), ("B", "dispB")] (World.start 0)).2.trace).length = 2 ∧
      (NotifyNewOrder (exampleOrderer failSecond) "24h" "abcd1234" ["bob", "carol"]
        ["prod-db"] 2 [("A", "dispA"), ("B", "dispB")] (World.start 0)).2.trace.length = 2 ∧
      (succeeded (sinkCalls (NotifyNewOrder (exampleOrderer failSecond) "24h" "abcd1234"
        ["bob", "carol"] ["prod-db"] 2 [("A", "dispA"), ("B", "dispB")]
        (World.start 0)).2.trace)).length = 2 - 1 ∧
      2 ≤ 1 + [("A", "dispA"), ("B", "dispB")].length ∧
      (NotifyNewOrder (exampleOrderer failSecond) "24h" "abcd1234" ["bob", "carol"]
        ["prod-db"] 2 [("A", "dispA"), ("B", "dispB")] (World.start 0)).1 = some "sink failed" :=
  NotifyNewOrder_fail_fast (exampleOrderer failSecond) failSecond rfl "24h" "abcd1234"
    ["bob", "carol"] ["prod-db"] 2 [("A", "dispA"), ("B", "dispB")] 0 2
    { msg := "@dispA - https://h?delegatee=bob%2Ccarol&delegator=A&duration=24h&label=prod-db&ordernum=abcd1234&uses=2",
      color := "green", sent := true, err := some "sink failed" }
    "sink failed" (by decide) (by decide) rfl

theorem sendAll_of_always_ok {σ : Type} (o : Orderer σ) (n : Notifier σ)
    (hn : o.Notifier = some n) (hok : ∀ st msg color, (n.Notify st msg color).1 = none)
    (msgs : List (String × String)) (w : World σ) : (sendAll o msgs w).1 = none := by
  induction msgs generalizing w with
  | nil => rfl
  | cons m rest ih =>
    obtain ⟨msg, color⟩ := m
    have h : (notify o msg color w).1 = none := by
      rw [notify_fst_of_some o n hn, hok]
    simp only [sendAll, h]
    exact ih _

/-- C7: with a notifier that always succeeds, `NotifyNewOrder` returns no
error and calls the notifier exactly `1 + n` times for `n` owner entries:
first with the broadcast message, then once per owner entry, in the order in
which the mapping is iterated, with the link addressed to that owner's display
name; every call succeeds. -/
theorem NotifyNewOrder_all_delivered {σ : Type} (o : Orderer σ) (n : Notifier σ)
    (hn : o.Notifier = some n) (hok : ∀ st msg color, (n.Notify st msg color).1 = none)
    (duration orderNum : String) (names labels : List String) (uses : Int)
    (owners : List (String × String)) (s : σ) :
    (NotifyNewOrder o duration orderNum names labels uses owners (World.start s)).1 = none ∧
      (sinkCalls (NotifyNewOrder o duration orderNum names labels uses owners
        (World.start s)).2.trace).length = 1 + owners.length ∧
      (sinkCalls (NotifyNewOrder o duration orderNum names labels uses owners
        (World.start s)).2.trace).map (fun c => (c.msg, c.color)) =
        (",".intercalate names ++ " has created an order for the label " ++
            ",".intercalate labels ++ ". requesting " ++ Itoa uses ++ " delegations for " ++
            duration, "red") ::
          owners.map (fun p =>
            ("@" ++ p.2 ++ " - https://" ++ o.RoHost ++ "?" ++
              linkQuery duration orderNum uses (",".intercalate labels) (",".intercalate names)
                p.1, "green")) ∧
      (∀ c ∈ (NotifyNewOrder o duration orderNum names labels uses owners
        (World.start s)).2.trace, c.sent = true ∧ c.err = none) := by
  obtain ⟨hff, hsent⟩ := NotifyNewOrder_spec o duration orderNum names labels uses owners s
  have hsent2 : ∀ c ∈ (NotifyNewOrder o duration orderNum names labels uses owners
      (World.start s)).2.trace, c.sent = true := by
    intro c hc
    rw [hsent c hc, hn]
    rfl
  rw [sinkCalls_eq_self _ hsent2]
  have hmsgs : newOrderMessages o duration orderNum names labels uses owners =
      (",".intercalate names ++ " has created an order for the label " ++
          ",".intercalate labels ++ ". requesting " ++ Itoa uses ++ " delegations for " ++
          duration, "red") ::
        owners.map (fun p =>
          ("@" ++ p.2 ++ " - https://" ++ o.RoHost ++ "?" ++
            linkQuery duration orderNum uses (",".intercalate labels) (",".intercalate names)
              p.1, "green")) := by
    have hlink : linkMessage o duration orderNum uses (",".intercalate labels)
        (",".intercalate names) = fun p =>
          ("@" ++ p.2 ++ " - https://" ++ o.RoHost ++ "?" ++
            linkQuery duration orderNum uses (",".intercalate labels) (",".intercalate names)
              p.1, "green") := by
      funext p
      simp only [linkMessage, Sprintf_NewOrderLink, notifier.GreenBackground]
    simp only [newOrderMessages, Sprintf_NewOrder, joinLoop_eq_intercalate,
      notifier.RedBackground, hlink]
  rcases hff with ⟨hr, hmap, hall⟩ | ⟨e, good, c, hr, hcalls, hgood, hce, hlen, hmap⟩
  · refine ⟨hr, ?_, ?_, fun c hc => ⟨hsent2 c hc, hall c hc⟩⟩
    · have hlen := congrArg List.length hmap
      simp only [List.length_map, newOrderMessages, List.length_cons] at hlen
      omega
    · rw [hmap, hmsgs]
  · have hnone := sendAll_of_always_ok o n hn hok
      (newOrderMessages o duration orderNum names labels uses owners) (World.start s)
    rw [← NotifyNewOrder_eq_sendAll, hr] at hnone
    exact absurd hnone (by simp)

/-- The hypotheses of C7 hold for two owners and a notifier that always
succeeds: three calls are made. -/
theorem NotifyNewOrder_all_delivered_witness :
    (NotifyNewOrder (exampleOrderer okSink) "24h" "abcd1234" ["bob", "carol"] ["prod-db"] 2
        [("A", "dispA"), ("B", "dispB")] (World.start 0)).1 = none ∧
      (sinkCalls (NotifyNewOrder (exampleOrderer okSink) "24h" "abcd1234" ["bob", "carol"]
        ["prod-db"] 2 [("A", "dispA"), ("B", "dispB")] (World.start 0)).2.trace).length = 3 :=
  have h := NotifyNewOrder_all_delivered (exampleOrderer okSink) okSink rfl
    (fun _ _ _ => rfl) "24h" "abcd1234" ["bob", "carol"] ["prod-db"] 2
    [("A", "dispA"), ("B", "dispB")] 0
  ⟨h.1, h.2.1⟩

theorem parseFormat_NewDelegation :
    parseFormat NewDelegation.data =
      [Piece.verb 's', Piece.lit " has delegated the label ", Piece.verb 's', Piece.lit " to ",
       Piece.verb 's', Piece.lit " (per order ", Piece.verb 's', Piece.lit ") for ",
       Piece.verb 's'] := by
  decide

theorem parseFormat_OrderFulfilled :
    parseFormat OrderFulfilled.data =
      [Piece.verb 's', Piece.lit " has had order ", Piece.verb 's', Piece.lit " fulfilled."] := by
  decide

/-- C8: without a notifier, `NotifyNewOrder`, `NotifyDelegation` and
`NotifyOrderFulfilled` each return the error of `notify`, no message reaches a
notifier and the notifier state stays as it was; `NotifyNewOrder` invokes
`notify` once, for the broadcast, and attempts no per-owner link. -/
theorem notify_without_notifier {σ : Type} (o : Orderer σ) (hn : o.Notifier = none)
    (duration orderNum delegator delegatee name : String) (names labels : List String)
    (uses : Int) (owners : List (String × String)) (s : σ) :
    ((NotifyNewOrder o duration orderNum names labels uses owners (World.start s)).1 =
        some "no Notifier set to notify of order" ∧
      (NotifyDelegation o delegator delegatee orderNum duration labels (World.start s)).1 =
        some "no Notifier set to notify of order" ∧
      (NotifyOrderFulfilled o name orderNum (World.start s)).1 =
        some "no Notifier set to notify of order") ∧
    ((NotifyNewOrder o duration orderNum names labels uses owners (World.start s)).2.trace =
        [{ msg := ",".intercalate names ++ " has created an order for the label " ++
             ",".intercalate labels ++ ". requesting " ++ Itoa uses ++ " delegations for " ++
             duration,
           color := "red", sent := false, err := some "no Notifier set to notify of order" }]) ∧
    (sinkCalls (NotifyNewOrder o duration orderNum names labels uses owners
        (World.start s)).2.trace = [] ∧
      sinkCalls (NotifyDelegation o delegator delegatee orderNum duration labels
        (World.start s)).2.trace = [] ∧
      sinkCalls (NotifyOrderFulfilled o name orderNum (World.start s)).2.trace = []) ∧
    ((NotifyNewOrder o duration orderNum names labels uses owners (World.start s)).2.sinkState = s ∧
      (NotifyDelegation o delegator delegatee orderNum duration labels
        (World.start s)).2.sinkState = s ∧
      (NotifyOrderFulfilled o name orderNum (World.start s)).2.sinkState = s) := by
  simp [NotifyNewOrder, NotifyDelegation, NotifyOrderFulfilled, notify_of_none o hn,
    World.start, sinkCalls, Sprintf_NewOrder, joinLoop_eq_intercalate, notifier.RedBackground]

/-- The hypothesis of C8 holds for the registry `NewOrderer` returns when it is
given no notifier. -/
theorem notify_without_notifier_witness :
    (NotifyNewOrder (NewOrderer "h" (none : Option (Notifier Nat))) "24h" "abcd1234"
        ["bob", "carol"] ["prod-db"] 2 [("dave", "Dave D")] (World.start 0)).1 =
        some "no Notifier set to notify of order" ∧
      (NotifyNewOrder (NewOrderer "h" (none : Option (Notifier Nat))) "24h" "abcd1234"
        ["bob", "carol"] ["prod-db"] 2 [("dave", "Dave D")] (World.start 0)).2.trace.length = 1 :=
  have h := notify_without_notifier (NewOrderer "h" (none : Option (Notifier Nat))) rfl "24h"
    "abcd1234" "dave" "bob" "bob" ["bob", "carol"] ["prod-db"] 2 [("dave", "Dave D")] 0
  ⟨h.1.1, by rw [h.2.1]; rfl⟩

/-- C9 (counterexample): in the end-to-end example, where the stored order
was created by `alice`, the first message of `NotifyNewOrder` is not the text
that starts with `alice`. -/
theorem example_broadcast_is_not_creator_text :
    exampleOrder.Creator = "alice" ∧
      ((NotifyNewOrder (exampleOrderer okSink) "24h" "abcd1234" ["bob", "carol"] ["prod-db"] 2
        [("dave", "Dave D")] (World.start 0)).2.trace.head?.map Call.msg) ≠
        some "alice has created an order for the label prod-db. requesting 2 delegations for 24h" := by
  decide

theorem FailFast_calls_follow_msgs (msgs : List (String × String)) (r : Option GoError)
    (calls : List Call) (hff : FailFast msgs r calls) (j : Nat) (c : Call)
    (hc : calls[j]? = some c) : msgs[j]? = some (c.msg, c.color) := by
  have hmapped : (calls.map (fun c => (c.msg, c.color)))[j]? = some (c.msg, c.color) := by
    rw [List.getElem?_map, hc]
    rfl
  rcases hff with ⟨_, hmap, _⟩ | ⟨e, good, c0, _, _, _, _, _, hmap⟩
  · rw [← hmap]
    exact hmapped
  · rw [hmap, List.getElem?_take] at hmapped
    split at hmapped
    · exact hmapped
    · exact absurd hmapped (by simp)

theorem FailFast_nonempty (m : String × String) (msgs : List (String × String))
    (r : Option GoError) (calls : List Call) (hff : FailFast (m :: msgs) r calls) :
    ∃ c, calls[0]? = some c := by
  rcases hff with ⟨_, hmap, _⟩ | ⟨e, good, c0, _, hcalls, _, _, _, _⟩
  · cases calls with
    | nil => simp at hmap
    | cons c rest => exact ⟨c, by simp⟩
  · subst hcalls
    cases good with
    | nil => exact ⟨c0, by simp⟩
    | cons g rest => exact ⟨g, by simp⟩

/-- C9 (amended): called with the arguments of the end-to-end example,
`NotifyNewOrder` first sends the text that starts with the comma-joined user
names `bob,carol`, whatever the registry stores (so whoever created the order)
and whatever notifier it uses. -/
theorem NotifyNewOrder_example_broadcast {σ : Type} (o : Orderer σ) (s : σ) :
    (NotifyNewOrder o "24h" "abcd1234" ["bob", "carol"] ["prod-db"] 2
        [("dave", "Dave D")] (World.start s)).2.trace.head?.map Call.msg =
      some "bob,carol has created an order for the label prod-db. requesting 2 delegations for 24h" := by
  have hmsg : Sprintf NewOrder [Arg.str (joinLoop "," ["bob", "carol"] 0 ""),
      Arg.str (joinLoop "," ["prod-db"] 0 ""), Arg.int 2, Arg.str "24h"] =
      "bob,carol has created an order for the label prod-db. requesting 2 delegations for 24h" := by
    decide
  obtain ⟨hff, _⟩ := NotifyNewOrder_spec o "24h" "abcd1234" ["bob", "carol"] ["prod-db"] 2
    [("dave", "Dave D")] s
  obtain ⟨c, hc⟩ := FailFast_nonempty _ _ _ _ hff
  have hpre := FailFast_calls_follow_msgs _ _ _ hff 0 c hc
  simp only [newOrderMessages, List.getElem?_cons_zero, hmsg, Option.some.injEq,
    Prod.mk.injEq] at hpre
  rw [List.head?_eq_getElem?, hc]
  simp [hpre.1]

/-- C10: whenever `NotifyNewOrder` invokes `notify` a further time after the
broadcast, the `(i + 1)`-th further invocation is for the `i`-th entry
`owner -> displayName` of `owners`, has colour `green` and carries exactly the
text `@displayName - https://RoHost?query`, where `query` lists the six
parameters `delegatee`, `delegator`, `duration`, `label`, `ordernum` and
`uses` once each as `key=value`, joined by `&`, every value query-escaped. -/
theorem NotifyNewOrder_link_message {σ : Type} (o : Orderer σ) (duration orderNum : String)
    (names labels : List String) (uses : Int) (owners : List (String × String)) (s : σ)
    (i : Nat) (c : Call)
    (hc : (NotifyNewOrder o duration orderNum names labels uses owners
      (World.start s)).2.trace[i + 1]? = some c) :
    ∃ owner displayName, owners[i]? = some (owner, displayName) ∧ c.color = "green" ∧
      c.msg = "@" ++ displayName ++ " - https://" ++ o.RoHost ++ "?" ++
        ("delegatee=" ++ QueryEscape (",".intercalate names) ++
          "&delegator=" ++ QueryEscape owner ++
          "&duration=" ++ QueryEscape duration ++
          "&label=" ++ QueryEscape (",".intercalate labels) ++
          "&ordernum=" ++ QueryEscape orderNum ++
          "&uses=" ++ QueryEscape (Itoa uses)) := by
  obtain ⟨hff, _⟩ := NotifyNewOrder_spec o duration orderNum names labels uses owners s
  have hpre := FailFast_calls_follow_msgs _ _ _ hff (i + 1) c hc
  simp only [newOrderMessages, List.getElem?_cons_succ, List.getElem?_map] at hpre
  cases hi : owners[i]? with
  | none =>
    rw [hi] at hpre
    exact absurd hpre (by simp)
  | some p =>
    obtain ⟨owner, displayName⟩ := p
    rw [hi] at hpre
    simp only [Option.map_some', linkMessage, Option.some.injEq, Prod.mk.injEq,
      Sprintf_NewOrderLink, linkQuery_eq, joinLoop_eq_intercalate,
      notifier.GreenBackground] at hpre
    exact ⟨owner, displayName, rfl, hpre.2.symm, hpre.1.symm⟩

/-- The hypothesis of C10 holds in the end-to-end example on host `h`, where
the link for `dave` is the second message. -/
theorem NotifyNewOrder_link_message_witness :
    (NotifyNewOrder (exampleOrderer okSink) "24h" "abcd1234" ["bob", "carol"] ["prod-db"] 2
        [("dave", "Dave D")] (World.start 0)).2.trace[1]? =
      some { msg := "@Dave D - https://h?delegatee=bob%2Ccarol&delegator=dave&duration=24h&label=prod-db&ordernum=abcd1234&uses=2",
             color := "green", sent := true, err := none } ∧
    ∃ owner displayName, [("dave", "Dave D")][0]? = some (owner, displayName) ∧
      "green" = "green" ∧
      "@Dave D - https://h?delegatee=bob%2Ccarol&delegator=dave&duration=24h&label=prod-db&ordernum=abcd1234&uses=2" =
        "@" ++ displayName ++ " - https://" ++ "h" ++ "?" ++
          ("delegatee=" ++ QueryEscape (",".intercalate ["bob", "carol"]) ++
            "&delegator=" ++ QueryEscape owner ++
            "&duration=" ++ QueryEscape "24h" ++
            "&label=" ++ QueryEscape (",".intercalate ["prod-db"]) ++
            "&ordernum=" ++ QueryEscape "abcd1234" ++
            "&uses=" ++ QueryEscape (Itoa 2)) :=
  ⟨by decide,
    NotifyNewOrder_link_message (exampleOrderer okSink) "24h" "abcd1234" ["bob", "carol"]
      ["prod-db"] 2 [("dave", "Dave D")] 0 0
      { msg := "@Dave D - https://h?delegatee=bob%2Ccarol&delegator=dave&duration=24h&label=prod-db&ordernum=abcd1234&uses=2",
        color := "green", sent := true, err := none } (by decide)⟩

/-! ## FindOrder: what it computes -/

theorem findLoop_not_found (user : String) (labels : List String)
    (orders : List (String × Order)) (h : (findLoop user labels orders).2 = false) :
    findLoop user labels orders = ("", false) := by
  induction orders with
  | nil => rfl
  | cons p rest ih =>
    obtain ⟨key, order⟩ := p
    rw [findLoop_cons] at h ⊢
    by_cases hacc : accepts user labels order = true
    · simp [hacc] at h
    · simp only [hacc] at h ⊢
      exact ih h

/-- C19: `FindOrder` reports found exactly when some stored order lists
`user` among its `Users`, has a non-empty `Labels` sequence and has the last
element of its `Labels` among `callerLabels`; the id returned is then the key
of such an order, and otherwise the result is `("", false)`.  So an order
without labels is never returned and only the last label of an order is
checked. -/
theorem FindOrder_characterisation {σ : Type} (o : Orderer σ) (user : String)
    (callerLabels : List String) :
    ((FindOrder o user callerLabels).2 = true ↔
        ∃ key order, (key, order) ∈ o.Orders ∧ user ∈ order.Users ∧
          ∃ hne : order.Labels ≠ [], order.Labels.getLast hne ∈ callerLabels) ∧
      ((FindOrder o user callerLabels).2 = true →
        ∃ order, ((FindOrder o user callerLabels).1, order) ∈ o.Orders ∧ user ∈ order.Users ∧
          ∃ hne : order.Labels ≠ [], order.Labels.getLast hne ∈ callerLabels) ∧
      ((FindOrder o user callerLabels).2 = false →
        FindOrder o user callerLabels = ("", false)) := by
  have hacc : ∀ order : Order, accepts user callerLabels order = true ↔
      (user ∈ order.Users ∧ ∃ hne : order.Labels ≠ [],
        order.Labels.getLast hne ∈ callerLabels) := by
    intro order
    rw [accepts_iff]
    constructor
    · rintro ⟨hu, ol, hlast, hol⟩
      have hne : order.Labels ≠ [] := by
        intro hnil
        rw [hnil] at hlast
        simp at hlast
      rw [List.getLast?_eq_getLast _ hne] at hlast
      cases hlast
      exact ⟨hu, hne, hol⟩
    · rintro ⟨hu, hne, hol⟩
      exact ⟨hu, _, List.getLast?_eq_getLast _ hne, hol⟩
  refine ⟨?_, ?_, ?_⟩
  · rw [FindOrder, findLoop_found_iff]
    constructor
    · rintro ⟨⟨key, order⟩, hmem, ha⟩
      exact ⟨key, order, hmem, (hacc order).mp ha⟩
    · rintro ⟨key, order, hmem, h⟩
      exact ⟨(key, order), hmem, (hacc order).mpr h⟩
  · intro hfound
    obtain ⟨order, hmem, ha⟩ := findLoop_found_mem user callerLabels o.Orders hfound
    exact ⟨order, hmem, (hacc order).mp ha⟩
  · intro hnot
    exact findLoop_not_found user callerLabels o.Orders hnot

/-- C19 at concrete registries: the order with labels `a`, `b` is returned
for the caller label `b` and not for `a`, and an order without labels is not
returned. -/
theorem FindOrder_characterisation_witness :
    FindOrder (registryOf orderAB) "u" ["b"] = ("k", true) ∧
      FindOrder (registryOf orderAB) "u" ["a"] = ("", false) ∧
      FindOrder (registryOf { orderAB with Labels := [] }) "u" ["a", "b"] = ("", false) :=
  ⟨by decide,
    (FindOrder_characterisation (registryOf orderAB) "u" ["a"]).2.2 (by decide),
    (FindOrder_characterisation (registryOf { orderAB with Labels := [] }) "u" ["a", "b"]).2.2
      (by decide)⟩

/-! ## CreateOrder -/

/-- C16: `CreateOrder` returns an `Order` whose nine fields are exactly the
nine arguments, each in its own field; it takes no registry and returns
nothing else, so no registry is modified. -/
theorem CreateOrder_fields (name orderNum : String) (time duration : Int)
    (adminsDelegated contacts users labels : List String) (numDelegated : Int) :
    CreateOrder name orderNum time duration adminsDelegated contacts users labels numDelegated =
      { Creator := name, Users := users, Num := orderNum, TimeRequested := time,
        DurationRequested := duration, Delegated := numDelegated,
        OwnersDelegated := adminsDelegated, Owners := contacts, Labels := labels } := by
  rfl

/-! ## Joined lists and message texts -/

theorem intercalate_go_eq_joinedWith (sep : String) (rest : List String) (acc x : String) :
    String.intercalate.go (acc ++ x) sep rest = acc ++ joinedWith sep (x :: rest) := by
  induction rest generalizing acc x with
  | nil => simp [String.intercalate.go, joinedWith]
  | cons y ys ih =>
    have h := ih (acc ++ x ++ sep) y
    simp only [String.intercalate.go, joinedWith, String.append_assoc] at h ⊢
    exact h

theorem intercalate_eq_joinedWith (sep : String) (xs : List String) :
    sep.intercalate xs = joinedWith sep xs := by
  cases xs with
  | nil => simp [String.intercalate, joinedWith]
  | cons x rest =>
    have h := intercalate_go_eq_joinedWith sep rest "" x
    simp only [String.empty_append] at h
    simpa [String.intercalate] using h

theorem joinLoop_eq_joinedWith (sep : String) (xs : List String) :
    joinLoop sep xs 0 "" = joinedWith sep xs := by
  rw [joinLoop_eq_intercalate, intercalate_eq_joinedWith]

theorem Sprintf_NewDelegation (delegator labelList delegatee orderNum duration : String) :
    Sprintf NewDelegation
        [Arg.str delegator, Arg.str labelList, Arg.str delegatee, Arg.str orderNum,
         Arg.str duration] =
      delegator ++ " has delegated the label " ++ labelList ++ " to " ++ delegatee ++
        " (per order " ++ orderNum ++ ") for " ++ duration := by
  rw [Sprintf, parseFormat_NewDelegation]
  simp [render, renderVerb, String.append_assoc]

theorem Sprintf_OrderFulfilled (name orderNum : String) :
    Sprintf OrderFulfilled [Arg.str name, Arg.str orderNum] =
      name ++ " has had order " ++ orderNum ++ " fulfilled." := by
  rw [Sprintf, parseFormat_OrderFulfilled]
  simp [render, renderVerb, String.append_assoc]

/-- The first invocation of `notify` by `NotifyNewOrder` is the broadcast. -/
theorem NotifyNewOrder_first_call {σ : Type} (o : Orderer σ) (duration orderNum : String)
    (names labels : List String) (uses : Int) (owners : List (String × String)) (s : σ) :
    ∃ c, (NotifyNewOrder o duration orderNum names labels uses owners
        (World.start s)).2.trace[0]? = some c ∧
      c.msg = Sprintf NewOrder [Arg.str (joinLoop "," names 0 ""),
        Arg.str (joinLoop "," labels 0 ""), Arg.int uses, Arg.str duration] ∧
      c.color = notifier.RedBackground := by
  obtain ⟨hff, _⟩ := NotifyNewOrder_spec o duration orderNum names labels uses owners s
  obtain ⟨c, hc⟩ := FailFast_nonempty _ _ _ _ hff
  have hpre := FailFast_calls_follow_msgs _ _ _ hff 0 c hc
  simp only [newOrderMessages, List.getElem?_cons_zero, Option.some.injEq,
    Prod.mk.injEq] at hpre
  exact ⟨c, hc, hpre.1.symm, hpre.2.symm⟩

/-- Every later invocation of `notify` by `NotifyNewOrder` is the link for the
corresponding entry of `owners`. -/
theorem NotifyNewOrder_later_call {σ : Type} (o : Orderer σ) (duration orderNum : String)
    (names labels : List String) (uses : Int) (owners : List (String × String)) (s : σ)
    (i : Nat) (c : Call)
    (hc : (NotifyNewOrder o duration orderNum names labels uses owners
      (World.start s)).2.trace[i + 1]? = some c) :
    ∃ p, owners[i]? = some p ∧
      (c.msg, c.color) = linkMessage o duration orderNum uses (joinLoop "," labels 0 "")
        (joinLoop "," names 0 "") p := by
  obtain ⟨hff, _⟩ := NotifyNewOrder_spec o duration orderNum names labels uses owners s
  have hpre := FailFast_calls_follow_msgs _ _ _ hff (i + 1) c hc
  simp only [newOrderMessages, List.getElem?_cons_succ, List.getElem?_map] at hpre
  cases hi : owners[i]? with
  | none =>
    rw [hi] at hpre
    exact absurd hpre (by simp)
  | some p =>
    rw [hi] at hpre
    simp only [Option.map_some', Option.some.injEq] at hpre
    exact ⟨p, rfl, hpre.symm⟩

/-- C12: the label text and the user-name text of `NotifyNewOrder` are the
elements joined with `,`, the label text of `NotifyDelegation` is the elements
joined with `, `; the empty list gives the empty text and a single element
gives that element.  The texts appear in the messages: in the broadcast and
in every link of `NotifyNewOrder`, and in the message of `NotifyDelegation`. -/
theorem label_and_name_joins {σ : Type} (o : Orderer σ)
    (duration orderNum delegator delegatee : String) (names labels : List String) (uses : Int)
    (owners : List (String × String)) (s : σ) :
    (joinLoop "," labels 0 "" = joinedWith "," labels ∧
      joinLoop "," names 0 "" = joinedWith "," names ∧
      joinLoop ", " labels 0 "" = joinedWith ", " labels) ∧
    (∀ sep x, joinedWith sep [] = "" ∧ joinedWith sep [x] = x ∧
      joinLoop sep [] 0 "" = "" ∧ joinLoop sep [x] 0 "" = x) ∧
    ((NotifyNewOrder o duration orderNum names labels uses owners
        (World.start s)).2.trace.head?.map Call.msg =
      some (joinedWith "," names ++ " has created an order for the label " ++
        joinedWith "," labels ++ ". requesting " ++ Itoa uses ++ " delegations for " ++
        duration)) ∧
    (∀ i c, (NotifyNewOrder o duration orderNum names labels uses owners
        (World.start s)).2.trace[i + 1]? = some c →
      ∃ owner displayName, owners[i]? = some (owner, displayName) ∧
        c.msg = "@" ++ displayName ++ " - https://" ++ o.RoHost ++ "?" ++
          linkQuery duration orderNum uses (joinedWith "," labels) (joinedWith "," names)
            owner) ∧
    ((NotifyDelegation o delegator delegatee orderNum duration labels
        (World.start s)).2.trace.map Call.msg =
      [delegator ++ " has delegated the label " ++ joinedWith ", " labels ++ " to " ++
        delegatee ++ " (per order " ++ orderNum ++ ") for " ++ duration]) := by
  refine ⟨⟨joinLoop_eq_joinedWith _ _, joinLoop_eq_joinedWith _ _, joinLoop_eq_joinedWith _ _⟩,
    ?_, ?_, ?_, ?_⟩
  · intro sep x
    refine ⟨rfl, rfl, rfl, ?_⟩
    simp [joinLoop]
  · obtain ⟨c, hc, hmsg, _⟩ :=
      NotifyNewOrder_first_call o duration orderNum names labels uses owners s
    rw [List.head?_eq_getElem?, hc]
    simp only [Option.map_some', hmsg, Sprintf_NewOrder, joinLoop_eq_joinedWith]
  · intro i c hc
    obtain ⟨p, hp, hlink⟩ :=
      NotifyNewOrder_later_call o duration orderNum names labels uses owners s i c hc
    obtain ⟨owner, displayName⟩ := p
    simp only [linkMessage, Prod.mk.injEq, Sprintf_NewOrderLink, joinLoop_eq_joinedWith] at hlink
    exact ⟨owner, displayName, hp, hlink.1⟩
  · simp only [NotifyDelegation, notify_trace, World.start, List.nil_append, List.map_cons,
      List.map_nil, Sprintf_NewDelegation, joinLoop_eq_joinedWith]

/-- C12 at concrete lists: three labels, one label and no label. -/
theorem label_and_name_joins_witness :
    (NotifyDelegation (exampleOrderer okSink) "dave" "bob" "abcd1234" "24h" ["x", "y", "z"]
        (World.start 0)).2.trace.map Call.msg =
      ["dave has delegated the label x, y, z to bob (per order abcd1234) for 24h"] ∧
    (NotifyNewOrder (exampleOrderer okSink) "24h" "abcd1234" ["bob"] ["x", "y", "z"] 2 []
        (World.start 0)).2.trace.map Call.msg =
      ["bob has created an order for the label x,y,z. requesting 2 delegations for 24h"] ∧
    (NotifyNewOrder (exampleOrderer okSink) "24h" "abcd1234" [] ["x"] 2 []
        (World.start 0)).2.trace.map Call.msg =
      [" has created an order for the label x. requesting 2 delegations for 24h"] := by
  have h := label_and_name_joins (exampleOrderer okSink) "24h" "abcd1234" "dave" "bob" ["bob"]
    ["x", "y", "z"] 2 [] 0
  exact ⟨h.2.2.2.2.trans (by decide), by decide, by decide⟩

/-! ## NotifyDelegation and NotifyOrderFulfilled -/

/-- C13: with a notifier configured, `NotifyDelegation` and
`NotifyOrderFulfilled` each call the notifier exactly once, with the text of
their template (the labels joined with `, `), and return exactly what that
call returns; the notifier is left in the state that call leaves. -/
theorem single_notifications {σ : Type} (o : Orderer σ) (n : Notifier σ)
    (hn : o.Notifier = some n) (delegator delegatee orderNum duration name : String)
    (labels : List String) (s : σ) :
    (NotifyDelegation o delegator delegatee orderNum duration labels (World.start s) =
      ((n.Notify s
          (delegator ++ " has delegated the label " ++ joinedWith ", " labels ++ " to " ++
            delegatee ++ " (per order " ++ orderNum ++ ") for " ++ duration) "yellow").1,
        { sinkState := (n.Notify s
            (delegator ++ " has delegated the label " ++ joinedWith ", " labels ++ " to " ++
              delegatee ++ " (per order " ++ orderNum ++ ") for " ++ duration) "yellow").2,
          trace := [Call.mk
            (delegator ++ " has delegated the label " ++ joinedWith ", " labels ++ " to " ++
              delegatee ++ " (per order " ++ orderNum ++ ") for " ++ duration)
            "yellow" true
            (n.Notify s
              (delegator ++ " has delegated the label " ++ joinedWith ", " labels ++ " to " ++
                delegatee ++ " (per order " ++ orderNum ++ ") for " ++ duration)
              "yellow").1] })) ∧
    (NotifyOrderFulfilled o name orderNum (World.start s) =
      ((n.Notify s (name ++ " has had order " ++ orderNum ++ " fulfilled.") "purple").1,
        { sinkState :=
            (n.Notify s (name ++ " has had order " ++ orderNum ++ " fulfilled.") "purple").2,
          trace := [Call.mk (name ++ " has had order " ++ orderNum ++ " fulfilled.") "purple"
            true
            (n.Notify s (name ++ " has had order " ++ orderNum ++ " fulfilled.")
              "purple").1] })) ∧
    (sinkCalls (NotifyDelegation o delegator delegatee orderNum duration labels
        (World.start s)).2.trace).length = 1 ∧
    (sinkCalls (NotifyOrderFulfilled o name orderNum (World.start s)).2.trace).length = 1 := by
  have h1 : NotifyDelegation o delegator delegatee orderNum duration labels (World.start s) =
      ((n.Notify s
          (delegator ++ " has delegated the label " ++ joinedWith ", " labels ++ " to " ++
            delegatee ++ " (per order " ++ orderNum ++ ") for " ++ duration) "yellow").1,
        { sinkState := (n.Notify s
            (delegator ++ " has delegated the label " ++ joinedWith ", " labels ++ " to " ++
              delegatee ++ " (per order " ++ orderNum ++ ") for " ++ duration) "yellow").2,
          trace := [Call.mk
            (delegator ++ " has delegated the label " ++ joinedWith ", " labels ++ " to " ++
              delegatee ++ " (per order " ++ orderNum ++ ") for " ++ duration)
            "yellow" true
            (n.Notify s
              (delegator ++ " has delegated the label " ++ joinedWith ", " labels ++ " to " ++
                delegatee ++ " (per order " ++ orderNum ++ ") for " ++ duration)
              "yellow").1] }) := by
    simp [NotifyDelegation, notify, hn, World.start, Sprintf_NewDelegation,
      joinLoop_eq_joinedWith, notifier.YellowBackground]
  have h2 : NotifyOrderFulfilled o name orderNum (World.start s) =
      ((n.Notify s (name ++ " has had order " ++ orderNum ++ " fulfilled.") "purple").1,
        { sinkState :=
            (n.Notify s (name ++ " has had order " ++ orderNum ++ " fulfilled.") "purple").2,
          trace := [Call.mk (name ++ " has had order " ++ orderNum ++ " fulfilled.") "purple"
            true
            (n.Notify s (name ++ " has had order " ++ orderNum ++ " fulfilled.")
              "purple").1] }) := by
    simp [NotifyOrderFulfilled, notify, hn, World.start, Sprintf_OrderFulfilled,
      notifier.PurpleBackground]
  refine ⟨h1, h2, ?_, ?_⟩
  · rw [h1]
    simp [sinkCalls]
  · rw [h2]
    simp [sinkCalls]

/-- The hypothesis of C13 holds for a notifier that accepts the message and
for one that fails: the result is `nil` in the first case and the error of the
notifier in the second. -/
theorem single_notifications_witness :
    (NotifyDelegation (exampleOrderer okSink) "dave" "bob" "abcd1234" "24h" ["x", "y"]
        (World.start 0)).2.trace =
      [Call.mk "dave has delegated the label x, y to bob (per order abcd1234) for 24h" "yellow"
        true none] ∧
    (NotifyOrderFulfilled (exampleOrderer failSink) "bob" "abcd1234" (World.start 0)).1 =
      some "sink failed" ∧
    (sinkCalls (NotifyOrderFulfilled (exampleOrderer failSink) "bob" "abcd1234"
      (World.start 0)).2.trace).length = 1 :=
  have h1 := single_notifications (exampleOrderer okSink) okSink rfl "dave" "bob" "abcd1234"
    "24h" "bob" ["x", "y"] 0
  have h2 := single_notifications (exampleOrderer failSink) failSink rfl "dave" "bob" "abcd1234"
    "24h" "bob" ["x", "y"] 0
  ⟨by rw [h1.1]; decide, by rw [h2.2.1]; rfl, h2.2.2.2⟩


/-! ## The colour hint -/

/-- Whether `notify` hands a message to the notifier does not depend on the
colour hint. -/
theorem notify_sent_colour_free {σ : Type} (o : Orderer σ) (msg c1 c2 : String) (w : World σ) :
    (notify o msg c1 w).2.trace.map Call.sent = (notify o msg c2 w).2.trace.map Call.sent := by
  simp [notify_trace]

/-- With a notifier that does not look at the colour hint (or without
notifier), replacing the colour hints changes neither the result nor the state
of the notifier nor which messages are handed over with which outcome. -/
theorem sendAll_recolour {σ : Type} (o : Orderer σ)
    (hblind : ∀ n, o.Notifier = some n → ∀ st msg c c', n.Notify st msg c = n.Notify st msg c')
    (f : String → String) (msgs : List (String × String)) (w1 w2 : World σ)
    (hstate : w1.sinkState = w2.sinkState)
    (htrace : w1.trace.map Call.content = w2.trace.map Call.content) :
    (sendAll o (recolour f msgs) w1).1 = (sendAll o msgs w2).1 ∧
      (sendAll o (recolour f msgs) w1).2.sinkState = (sendAll o msgs w2).2.sinkState ∧
      (sendAll o (recolour f msgs) w1).2.trace.map Call.content =
        (sendAll o msgs w2).2.trace.map Call.content := by
  induction msgs generalizing w1 w2 with
  | nil => exact ⟨rfl, hstate, htrace⟩
  | cons m rest ih =>
    obtain ⟨msg, color⟩ := m
    have hstep : (notify o msg (f color) w1).1 = (notify o msg color w2).1 ∧
        (notify o msg (f color) w1).2.sinkState = (notify o msg color w2).2.sinkState ∧
        (notify o msg (f color) w1).2.trace.map Call.content =
          (notify o msg color w2).2.trace.map Call.content := by
      cases hn : o.Notifier with
      | none => simp [notify, hn, hstate, htrace, Call.content]
      | some n =>
        have hb := hblind n hn w2.sinkState msg (f color) color
        simp [notify, hn, hstate, hb, htrace, Call.content]
    obtain ⟨he, hs, ht⟩ := hstep
    simp only [recolour, List.map_cons, sendAll] at ih ⊢
    rw [he]
    cases hres : (notify o msg color w2).1 with
    | some err => exact ⟨rfl, hs, ht⟩
    | none => exact ih _ _ hs ht

/-- The first record that a run of `sendAll` adds to the trace. -/
theorem sendAll_first_call {σ : Type} (o : Orderer σ) (msg color : String)
    (rest : List (String × String)) (w : World σ) :
    ∃ calls, (sendAll o ((msg, color) :: rest) w).2.trace =
      w.trace ++ Call.mk msg color o.Notifier.isSome (notify o msg color w).1 :: calls := by
  have htr := notify_trace o msg color w
  simp only [sendAll]
  cases h : (notify o msg color w).1 with
  | some err =>
    rw [h] at htr
    exact ⟨[], htr⟩
  | none =>
    rw [h] at htr
    obtain ⟨calls, hcalls, _, _⟩ := sendAll_spec o rest (notify o msg color w).2
    refine ⟨calls, ?_⟩
    show (sendAll o rest (notify o msg color w).2).2.trace = _
    rw [hcalls, htr]
    simp

/-- C20 (amended): with a notifier configured, the first message of
`NotifyNewOrder` is `<N> has created an order for the label <L>. requesting
<uses> delegations for <duration>`, with `N` the names and `L` the labels
joined with `,` and `uses` in decimal, and it has the colour hint `red`; every
later message has the colour hint `green`.  The code of the registry does not
act on the colour hint: `notify` hands a message to the notifier whatever the
hint, and with a notifier that does not look at the hint, `NotifyNewOrder`
(which hands its messages to `notify` in order until one fails) would return
the same, leave the notifier in the same state and send the same messages with
the same outcomes if its hints were replaced by any others. -/
theorem NotifyNewOrder_broadcast_and_colours {σ : Type} (o : Orderer σ) (n : Notifier σ)
    (hn : o.Notifier = some n) (duration orderNum : String) (names labels : List String)
    (uses : Int) (owners : List (String × String)) (s : σ) :
    ((NotifyNewOrder o duration orderNum names labels uses owners (World.start s)).2.trace[0]? =
      some (Call.mk
        (joinedWith "," names ++ " has created an order for the label " ++
          joinedWith "," labels ++ ". requesting " ++ Itoa uses ++ " delegations for " ++
          duration)
        "red" true
        (n.Notify s
          (joinedWith "," names ++ " has created an order for the label " ++
            joinedWith "," labels ++ ". requesting " ++ Itoa uses ++ " delegations for " ++
            duration)
          "red").1)) ∧
    (∀ i c, (NotifyNewOrder o duration orderNum names labels uses owners
        (World.start s)).2.trace[i + 1]? = some c → c.color = "green") ∧
    (∀ msg c1 c2 w,
      (notify o msg c1 w).2.trace.map Call.sent = (notify o msg c2 w).2.trace.map Call.sent) ∧
    (NotifyNewOrder o duration orderNum names labels uses owners (World.start s) =
      sendAll o (newOrderMessages o duration orderNum names labels uses owners)
        (World.start s)) ∧
    ((∀ st msg c c', n.Notify st msg c = n.Notify st msg c') →
      ∀ f : String → String,
        (sendAll o (recolour f (newOrderMessages o duration orderNum names labels uses owners))
            (World.start s)).1 =
          (NotifyNewOrder o duration orderNum names labels uses owners (World.start s)).1 ∧
        (sendAll o (recolour f (newOrderMessages o duration orderNum names labels uses owners))
            (World.start s)).2.sinkState =
          (NotifyNewOrder o duration orderNum names labels uses owners
            (World.start s)).2.sinkState ∧
        (sendAll o (recolour f (newOrderMessages o duration orderNum names labels uses owners))
            (World.start s)).2.trace.map Call.content =
          (NotifyNewOrder o duration orderNum names labels uses owners
            (World.start s)).2.trace.map Call.content) := by
  refine ⟨?_, ?_, notify_sent_colour_free o, NotifyNewOrder_eq_sendAll _ _ _ _ _ _ _ _, ?_⟩
  · rw [NotifyNewOrder_eq_sendAll, newOrderMessages]
    obtain ⟨calls, hcalls⟩ := sendAll_first_call o
      (Sprintf NewOrder [Arg.str (joinLoop "," names 0 ""), Arg.str (joinLoop "," labels 0 ""),
        Arg.int uses, Arg.str duration]) notifier.RedBackground
      (owners.map (linkMessage o duration orderNum uses (joinLoop "," labels 0 "")
        (joinLoop "," names 0 ""))) (World.start s)
    rw [hcalls]
    simp [World.start, notify, hn, Sprintf_NewOrder, joinLoop_eq_joinedWith,
      notifier.RedBackground]
  · intro i c hc
    obtain ⟨p, _, hlink⟩ :=
      NotifyNewOrder_later_call o duration orderNum names labels uses owners s i c hc
    simp only [linkMessage, Prod.mk.injEq] at hlink
    exact hlink.2
  · intro hblind f
    rw [NotifyNewOrder_eq_sendAll]
    apply sendAll_recolour o _ f _ _ _ rfl rfl
    intro n' hn' 
    rw [hn] at hn'
    cases hn'
    exact hblind

/-- The hypotheses of C20 (amended) hold in the end-to-end example with a notifier that
accepts every message and does not look at the colour hint. -/
theorem NotifyNewOrder_broadcast_and_colours_witness :
    (NotifyNewOrder (exampleOrderer okSink) "24h" "abcd1234" ["bob", "carol"] ["prod-db"] 2
        [("dave", "Dave D")] (World.start 0)).2.trace[0]? =
      some (Call.mk
        "bob,carol has created an order for the label prod-db. requesting 2 delegations for 24h"
        "red" true none) ∧
    (sendAll (exampleOrderer okSink)
        (recolour (fun _ => "gray")
          (newOrderMessages (exampleOrderer okSink) "24h" "abcd1234" ["bob", "carol"]
            ["prod-db"] 2 [("dave", "Dave D")]))
        (World.start 0)).2.trace.map Call.content =
      (NotifyNewOrder (exampleOrderer okSink) "24h" "abcd1234" ["bob", "carol"] ["prod-db"] 2
        [("dave", "Dave D")] (World.start 0)).2.trace.map Call.content :=
  have h := NotifyNewOrder_broadcast_and_colours (exampleOrderer okSink) okSink rfl "24h"
    "abcd1234" ["bob", "carol"] ["prod-db"] 2 [("dave", "Dave D")] 0
  ⟨h.1.trans (by decide), (h.2.2.2.2 (fun _ _ _ _ => rfl) (fun _ => "gray")).2.2⟩


/-! ## GenerateNum -/

theorem hextable_digit (i : Fin 16) :
    hextable.getD i.val '0' ∈ hextable ∧ fromHexChar (hextable.getD i.val '0') = some i.val := by
  revert i
  decide

theorem encodeHexByte_mem (b : Nat) : ∀ c ∈ encodeHexByte b, c ∈ hextable := by
  intro c hc
  have h1 := (hextable_digit ⟨b % 256 / 16, by omega⟩).1
  have h2 := (hextable_digit ⟨b % 256 % 16, by omega⟩).1
  simp only [encodeHexByte, List.mem_cons, List.mem_singleton, List.not_mem_nil, or_false] at hc
  rcases hc with rfl | rfl
  · exact h1
  · exact h2

theorem decodeHex_encode (bytes : List Nat) :
    decodeHex (bytes.flatMap encodeHexByte) = some (bytes.map fun v => v % 256) := by
  induction bytes with
  | nil => rfl
  | cons b rest ih =>
    have h1 : fromHexChar (hextable.getD (b % 256 / 16) '0') = some (b % 256 / 16) :=
      (hextable_digit ⟨b % 256 / 16, by omega⟩).2
    have h2 : fromHexChar (hextable.getD (b % 256 % 16) '0') = some (b % 256 % 16) :=
      (hextable_digit ⟨b % 256 % 16, by omega⟩).2
    have hb : b % 256 / 16 * 16 + b % 256 % 16 = b % 256 := by omega
    have hcons : (b :: rest).flatMap encodeHexByte =
        hextable.getD (b % 256 / 16) '0' :: hextable.getD (b % 256 % 16) '0' ::
          rest.flatMap encodeHexByte := by
      rw [List.flatMap_cons]
      rfl
    rw [hcons, decodeHex, h1, h2, ih]
    simp only [List.map_cons, hb]

theorem length_flatMap_encodeHexByte (bytes : List Nat) :
    (bytes.flatMap encodeHexByte).length = 2 * bytes.length := by
  induction bytes with
  | nil => rfl
  | cons b rest ih =>
    simp only [List.flatMap_cons, List.length_append, ih, encodeHexByte, List.length_cons,
      List.length_nil]
    omega

theorem map_mod_of_bytes (bytes : List Nat) (hbyte : ∀ b ∈ bytes, b < 256) :
    (bytes.map fun v => v % 256) = bytes := by
  induction bytes with
  | nil => rfl
  | cons b rest ih =>
    have hb : b % 256 = b := Nat.mod_eq_of_lt (hbyte b (List.mem_cons_self _ _))
    simp only [List.map_cons, hb, ih fun x hx => hbyte x (List.mem_cons_of_mem _ hx)]

/-- When `rand.Read` fills the buffer, the buffer holds just the bytes
delivered. -/
theorem fillBuffer_full (bytes : List Nat) (hlen : bytes.length = 12) :
    fillBuffer (List.replicate 12 0) bytes = bytes.map fun v => v % 256 := by
  have hdrop : (List.replicate 12 0).drop bytes.length = [] := by
    rw [hlen]
    rfl
  have hlen2 : (bytes.map fun v => v % 256).length = 12 := by
    rw [List.length_map, hlen]
  rw [fillBuffer, hdrop, List.append_nil, List.length_replicate, ← hlen2, List.take_length]

theorem GenerateNum_filled (bytes : List Nat) (hlen : bytes.length = 12) :
    GenerateNum (ReadOutcome.filled bytes hlen) =
      some (EncodeToString (bytes.map fun v => v % 256)) := by
  simp only [GenerateNum, fillBuffer_full bytes hlen]

/-- C14: when the randomness source fails, `rand.Read` does not return and
`GenerateNum` returns no identifier.  Every identifier that `GenerateNum`
returns is the encoding of 12 bytes that `rand.Read` delivered; in particular
the encoding of the zero buffer is returned only when the source delivered 12
zero bytes, never for a failure. -/
theorem GenerateNum_no_identifier_on_failure :
    GenerateNum ReadOutcome.crashed = none ∧
    (∀ outcome id, GenerateNum outcome = some id →
      ∃ bytes full, outcome = ReadOutcome.filled bytes full ∧
        id = EncodeToString (bytes.map fun v => v % 256)) ∧
    (∀ outcome, GenerateNum outcome = some "000000000000000000000000" →
      ∃ bytes full, outcome = ReadOutcome.filled bytes full ∧ ∀ b ∈ bytes, b % 256 = 0) := by
  have hsome : ∀ outcome id, GenerateNum outcome = some id →
      ∃ bytes full, outcome = ReadOutcome.filled bytes full ∧
        id = EncodeToString (bytes.map fun v => v % 256) := by
    intro outcome id h
    cases outcome with
    | crashed => exact absurd h (by simp [GenerateNum])
    | filled bytes full =>
      rw [GenerateNum_filled] at h
      exact ⟨bytes, full, rfl, (Option.some.inj h).symm⟩
  refine ⟨rfl, hsome, ?_⟩
  intro outcome h
  obtain ⟨bytes, full, hout, hid⟩ := hsome outcome _ h
  refine ⟨bytes, full, hout, ?_⟩
  have hdec := congrArg DecodeString hid
  have hround : DecodeString (EncodeToString (bytes.map fun v => v % 256)) =
      some ((bytes.map fun v => v % 256).map fun v => v % 256) := by
    rw [DecodeString, EncodeToString, decodeHex_encode]
  have hzero : DecodeString "000000000000000000000000" = some (List.replicate 12 0) := by
    decide
  rw [hzero, hround, List.map_map] at hdec
  have hmap : List.replicate 12 0 = bytes.map ((fun v => v % 256) ∘ fun v => v % 256) :=
    Option.some.inj hdec
  intro b hb
  have hmem : ((fun v => v % 256) ∘ fun v => v % 256) b ∈ List.replicate 12 0 := by
    rw [hmap]
    exact List.mem_map_of_mem _ hb
  have h0 := List.eq_of_mem_replicate hmem
  simp only [Function.comp_apply, Nat.mod_mod] at h0
  exact h0

/-- C15: when `rand.Read` delivers 12 bytes, `GenerateNum` returns 24
characters, each one of `0123456789abcdef`, namely for every byte in turn the
digit of its high half and the digit of its low half; decoding the result
gives the bytes back, so different draws give different identifiers. -/
theorem GenerateNum_hex (bytes : List Nat) (hlen : bytes.length = 12)
    (hbyte : ∀ b ∈ bytes, b < 256) :
    ∃ id, GenerateNum (ReadOutcome.filled bytes hlen) = some id ∧
      id.length = 24 ∧
      (∀ c ∈ id.data, c ∈ "0123456789abcdef".data) ∧
      id.data =
        bytes.flatMap (fun b =>
          ["0123456789abcdef".data.getD (b / 16) '0',
           "0123456789abcdef".data.getD (b % 16) '0']) ∧
      id = EncodeToString bytes ∧
      DecodeString id = some bytes ∧
      (∀ bytes' (hlen' : bytes'.length = 12), (∀ b ∈ bytes', b < 256) →
        GenerateNum (ReadOutcome.filled bytes' hlen') =
          GenerateNum (ReadOutcome.filled bytes hlen) → bytes' = bytes) := by
  have hgen : ∀ (bs : List Nat) (hl : bs.length = 12), (∀ b ∈ bs, b < 256) →
      GenerateNum (ReadOutcome.filled bs hl) = some (EncodeToString bs) := by
    intro bs hl hb
    rw [GenerateNum_filled, map_mod_of_bytes bs hb]
  have hdec : ∀ bs : List Nat, (∀ b ∈ bs, b < 256) →
      DecodeString (EncodeToString bs) = some bs := by
    intro bs hb
    rw [DecodeString, EncodeToString, decodeHex_encode, map_mod_of_bytes bs hb]
  refine ⟨EncodeToString bytes, hgen bytes hlen hbyte, ?_, ?_, ?_, rfl, hdec bytes hbyte, ?_⟩
  · simp only [EncodeToString, String.length, length_flatMap_encodeHexByte, hlen]
  · intro c hc
    simp only [EncodeToString, List.mem_flatMap] at hc
    obtain ⟨b, _, hcb⟩ := hc
    exact encodeHexByte_mem b c hcb
  · simp only [EncodeToString]
    apply List.flatMap_congr
    intro b hb
    simp only [encodeHexByte, hextable, Nat.mod_eq_of_lt (hbyte b hb)]
  · intro bytes' hlen' hbyte' heq
    rw [hgen bytes' hlen' hbyte', hgen bytes hlen hbyte] at heq
    have h := congrArg DecodeString (Option.some.inj heq)
    rw [hdec bytes' hbyte', hdec bytes hbyte] at h
    exact Option.some.inj h

/-- The hypotheses of C15 hold for the draw `01 02 03 ff 10 11 12 13 14 15 16
ab`. -/
theorem GenerateNum_hex_witness :
    GenerateNum (ReadOutcome.filled [1, 2, 3, 255, 16, 17, 18, 19, 20, 21, 22, 171] rfl) =
      some "010203ff10111213141516ab" ∧
    ("010203ff10111213141516ab" : String).length = 24 :=
  have h := GenerateNum_hex [1, 2, 3, 255, 16, 17, 18, 19, 20, 21, 22, 171] rfl (by decide)
  Exists.elim h fun id hid =>
    have hid2 : id = "010203ff10111213141516ab" := hid.2.2.2.2.1.trans (by decide)
    ⟨hid.1.trans (congrArg some hid2), by decide⟩

/-! ## The Slack notifier -/

/-- C18: for every message and colour, and whatever the library calls would
do, `Notify` on a client whose `Url` is empty returns the error `URL unset`
and leaves the network side as it was: no request is built or sent and nothing
is logged.  The same holds when such a client is used as the notifier of a
registry. -/
theorem SlackClient_Notify_empty_url {ν : Type} (lib : HttpLib ν) (msg color : String)
    (net : Net ν) :
    SlackClient.Notify lib (NewSlackClient "") msg color net = (some "URL unset", net) ∧
      SlackClient.Notify lib { Url := "" } msg color net = (some "URL unset", net) ∧
      (SlackClient.asNotifier lib (NewSlackClient "")).Notify net msg color =
        (some "URL unset", net) :=
  ⟨rfl, rfl, rfl⟩

/-- C18 set against a client with a URL: with the empty URL nothing is built
or sent, with a URL one request is built and sent. -/
theorem SlackClient_Notify_empty_url_witness :
    (SlackClient.Notify okLib (NewSlackClient "") "hello" "red" (Net.start 0)).1 =
        some "URL unset" ∧
      (SlackClient.Notify okLib (NewSlackClient "") "hello" "red" (Net.start 0)).2.sent = [] ∧
      (SlackClient.Notify okLib (NewSlackClient "") "hello" "red" (Net.start 0)).2.built = [] ∧
      (SlackClient.Notify okLib (NewSlackClient "https://hooks.example/x") "hello" "red"
        (Net.start 0)).1 = none ∧
      (SlackClient.Notify okLib (NewSlackClient "https://hooks.example/x") "hello" "red"
        (Net.start 0)).2.sent =
        [{ method := "POST", url := "https://hooks.example/x", body := "\x7b\"text\":\"hello\"\x7d",
           header := [("Content-Type", "application/json")] }] :=
  have h := (SlackClient_Notify_empty_url okLib "hello" "red" (Net.start 0)).1
  ⟨by rw [h], by rw [h]; rfl, by rw [h]; rfl, by decide, by decide⟩

set_option maxRecDepth 100000 in
theorem escapeCodes_eq (b : Fin 256) :
    escapeCodes b.val =
      if shouldEscape b.val then
        (if b.val = 32 then [43] else [37, upperCode (b.val / 16), upperCode (b.val % 16)])
      else [b.val] := by
  revert b
  decide

set_option maxRecDepth 100000 in
theorem escapeByte_no_separator (b : Fin 256) :
    '&' ∉ escapeByte b.val ∧ '=' ∉ escapeByte b.val ∧ ',' ∉ escapeByte b.val := by
  revert b
  decide

theorem upperCode_hex (i : Fin 16) :
    ishex (upperCode i.val) = true ∧ unhex (upperCode i.val) = i.val := by
  revert i
  decide

set_option maxRecDepth 100000 in
theorem unescaped_not_special (b : Fin 256) (h : shouldEscape b.val = false) :
    b.val ≠ 37 ∧ b.val ≠ 43 := by
  revert b
  decide

theorem goBytes_lt (s : String) : ∀ b ∈ goBytes s, b < 256 := by
  intro b hb
  simp only [goBytes, List.mem_flatMap, List.mem_map] at hb
  obtain ⟨_, _, u, _, rfl⟩ := hb
  exact u.val.isLt

theorem goBytes_QueryEscape (s : String) :
    goBytes (QueryEscape s) = (goBytes s).flatMap escapeCodes := by
  simp only [goBytes, QueryEscape, List.flatMap_assoc]
  rfl

theorem unescapeBytes_cons_plain (c : Nat) (rest : List Nat) (h37 : c ≠ 37) :
    unescapeBytes (c :: rest) =
      (unescapeBytes rest).map fun bytes => (if c = 43 then 32 else c) :: bytes := by
  by_cases h43 : c = 43
  · rcases rest with _ | ⟨a, _ | ⟨b, t⟩⟩ <;> simp [unescapeBytes, h43]
  · rcases rest with _ | ⟨a, _ | ⟨b, t⟩⟩ <;> simp [unescapeBytes, h37, h43]

theorem unescapeBytes_escapeCodes (b : Nat) (hb : b < 256) (rest : List Nat) :
    unescapeBytes (escapeCodes b ++ rest) = (unescapeBytes rest).map fun bytes => b :: bytes := by
  have hcodes := escapeCodes_eq ⟨b, hb⟩
  simp only at hcodes
  rw [hcodes]
  by_cases hesc : shouldEscape b = true
  · by_cases hsp : b = 32
    · subst hsp
      rw [if_pos hesc, if_pos rfl]
      rw [List.singleton_append, unescapeBytes_cons_plain 43 rest (by decide), if_pos rfl]
    · have hhi := upperCode_hex ⟨b / 16, by omega⟩
      have hlo := upperCode_hex ⟨b % 16, by omega⟩
      simp only at hhi hlo
      have hval : (b / 16 * 16 + b % 16) % 256 = b := by omega
      rw [if_pos hesc, if_neg hsp]
      show unescapeBytes (37 :: upperCode (b / 16) :: upperCode (b % 16) :: rest) = _
      rw [unescapeBytes, if_pos rfl]
      simp only [hhi.1, hhi.2, hlo.1, hlo.2, hval, Bool.and_self, if_true]
  · have hesc2 : shouldEscape b = false := by simpa using hesc
    have hns := unescaped_not_special ⟨b, hb⟩ hesc2
    simp only at hns
    rw [if_neg hesc, List.singleton_append, unescapeBytes_cons_plain b rest hns.1,
      if_neg hns.2]

theorem unescapeBytes_flatMap_escapeCodes (bytes : List Nat) (hbytes : ∀ b ∈ bytes, b < 256) :
    unescapeBytes (bytes.flatMap escapeCodes) = some bytes := by
  induction bytes with
  | nil => rfl
  | cons b rest ih =>
    rw [List.flatMap_cons, unescapeBytes_escapeCodes b (hbytes b (List.mem_cons_self _ _)),
      ih fun x hx => hbytes x (List.mem_cons_of_mem _ hx)]
    rfl

/-- Decoding an escaped string gives the string back. -/
theorem QueryUnescape_QueryEscape (s : String) :
    QueryUnescape (QueryEscape s) = some (goBytes s) := by
  rw [QueryUnescape, goBytes_QueryEscape, unescapeBytes_flatMap_escapeCodes _ (goBytes_lt s)]

/-- An escaped string contains none of `&`, `=` and `,`. -/
theorem count_QueryEscape (s : String) :
    (QueryEscape s).data.count '&' = 0 ∧ (QueryEscape s).data.count '=' = 0 ∧
      (QueryEscape s).data.count ',' = 0 := by
  have hno : ∀ ch, (ch = '&' ∨ ch = '=' ∨ ch = ',') → ch ∉ (QueryEscape s).data := by
    intro ch hch hmem
    simp only [QueryEscape, List.mem_flatMap] at hmem
    obtain ⟨b, hb, hin⟩ := hmem
    have h := escapeByte_no_separator ⟨b, goBytes_lt s b hb⟩
    simp only at h
    rcases hch with rfl | rfl | rfl
    · exact h.1 hin
    · exact h.2.1 hin
    · exact h.2.2 hin
  exact ⟨List.count_eq_zero.mpr (hno _ (Or.inl rfl)),
    List.count_eq_zero.mpr (hno _ (Or.inr (Or.inl rfl))),
    List.count_eq_zero.mpr (hno _ (Or.inr (Or.inr rfl)))⟩

theorem count_data_append (a b : String) (ch : Char) :
    (a ++ b).data.count ch = a.data.count ch + b.data.count ch := by
  rw [String.data_append, List.count_append]

/-- C11: in the query of a link every field value is one opaque value.
Whatever the owner, the joined labels, the joined names, the duration and the
order number contain, the query is the six `key=value` pairs with the values
escaped, it has exactly five `&` and six `=` and no `,`, and decoding an
escaped value by `QueryUnescape` gives the bytes of the original value. -/
theorem linkQuery_values_opaque (duration orderNum : String) (uses : Int)
    (labelList nameList owner : String) :
    (linkQuery duration orderNum uses labelList nameList owner =
      "delegatee=" ++ QueryEscape nameList ++ "&delegator=" ++ QueryEscape owner ++
        "&duration=" ++ QueryEscape duration ++ "&label=" ++ QueryEscape labelList ++
        "&ordernum=" ++ QueryEscape orderNum ++ "&uses=" ++ QueryEscape (Itoa uses)) ∧
    ((linkQuery duration orderNum uses labelList nameList owner).data.count '&' = 5 ∧
      (linkQuery duration orderNum uses labelList nameList owner).data.count '=' = 6 ∧
      (linkQuery duration orderNum uses labelList nameList owner).data.count ',' = 0) ∧
    (QueryUnescape (QueryEscape nameList) = some (goBytes nameList) ∧
      QueryUnescape (QueryEscape owner) = some (goBytes owner) ∧
      QueryUnescape (QueryEscape duration) = some (goBytes duration) ∧
      QueryUnescape (QueryEscape labelList) = some (goBytes labelList) ∧
      QueryUnescape (QueryEscape orderNum) = some (goBytes orderNum) ∧
      QueryUnescape (QueryEscape (Itoa uses)) = some (goBytes (Itoa uses))) := by
  refine ⟨linkQuery_eq _ _ _ _ _ _, ?_, QueryUnescape_QueryEscape _, QueryUnescape_QueryEscape _,
    QueryUnescape_QueryEscape _, QueryUnescape_QueryEscape _, QueryUnescape_QueryEscape _,
    QueryUnescape_QueryEscape _⟩
  have k1 : ("delegatee=" : String).data.count '&' = 0 ∧ ("delegatee=" : String).data.count '=' = 1 ∧
      ("delegatee=" : String).data.count ',' = 0 := by decide
  have k2 : ("&delegator=" : String).data.count '&' = 1 ∧
      ("&delegator=" : String).data.count '=' = 1 ∧
      ("&delegator=" : String).data.count ',' = 0 := by decide
  have k3 : ("&duration=" : String).data.count '&' = 1 ∧
      ("&duration=" : String).data.count '=' = 1 ∧
      ("&duration=" : String).data.count ',' = 0 := by decide
  have k4 : ("&label=" : String).data.count '&' = 1 ∧ ("&label=" : String).data.count '=' = 1 ∧
      ("&label=" : String).data.count ',' = 0 := by decide
  have k5 : ("&ordernum=" : String).data.count '&' = 1 ∧
      ("&ordernum=" : String).data.count '=' = 1 ∧
      ("&ordernum=" : String).data.count ',' = 0 := by decide
  have k6 : ("&uses=" : String).data.count '&' = 1 ∧ ("&uses=" : String).data.count '=' = 1 ∧
      ("&uses=" : String).data.count ',' = 0 := by decide
  have e1 := count_QueryEscape nameList
  have e2 := count_QueryEscape owner
  have e3 := count_QueryEscape duration
  have e4 := count_QueryEscape labelList
  have e5 := count_QueryEscape orderNum
  have e6 := count_QueryEscape (Itoa uses)
  rw [linkQuery_eq]
  simp only [count_data_append, k1, k2, k3, k4, k5, k6, e1, e2, e3, e4, e5, e6]
  exact ⟨trivial, trivial, trivial⟩

/-- C11 at values that contain separators: an owner `a&b=c`, the labels
`x,y` and `p q`, a duration with `%` and `?`. -/
theorem linkQuery_values_opaque_witness :
    linkQuery "1h%?" "n=1" 2 "x,y,p q" "bob,carol" "a&b=c" =
      "delegatee=bob%2Ccarol&delegator=a%26b%3Dc&duration=1h%25%3F&label=x%2Cy%2Cp+q&ordernum=n%3D1&uses=2" ∧
    (linkQuery "1h%?" "n=1" 2 "x,y,p q" "bob,carol" "a&b=c").data.count '&' = 5 ∧
    QueryUnescape "a%26b%3Dc" = some (goBytes "a&b=c") :=
  have h := linkQuery_values_opaque "1h%?" "n=1" 2 "x,y,p q" "bob,carol" "a&b=c"
  ⟨h.1.trans (by decide), h.2.1.1, by decide⟩


/-- C20 (counterexample): a notifier that fails on the hint `red`.  With the
hints of the code `NotifyNewOrder` stops after one call; the same messages in
the same order with the hint `gray` lead to three calls. -/
theorem colour_hint_changes_call_count :
    (NotifyNewOrder (exampleOrderer redFailSink) "24h" "abcd1234" ["bob", "carol"] ["prod-db"]
        2 [("A", "dispA"), ("B", "dispB")] (World.start 0)).2.trace.length = 1 ∧
    (sendAll (exampleOrderer redFailSink)
        (recolour (fun _ => "gray")
          (newOrderMessages (exampleOrderer redFailSink) "24h" "abcd1234" ["bob", "carol"]
            ["prod-db"] 2 [("A", "dispA"), ("B", "dispB")]))
        (World.start 0)).2.trace.length = 3 ∧
    (sendAll (exampleOrderer redFailSink)
        (newOrderMessages (exampleOrderer redFailSink) "24h" "abcd1234" ["bob", "carol"]
          ["prod-db"] 2 [("A", "dispA"), ("B", "dispB")])
        (World.start 0)).2.trace =
      (NotifyNewOrder (exampleOrderer redFailSink) "24h" "abcd1234" ["bob", "carol"] ["prod-db"]
        2 [("A", "dispA"), ("B", "dispB")] (World.start 0)).2.trace := by
  decide

/-! ## The receiver as state -/

theorem findLoopS_eq {ι σ : Type} (user : String) (labels : List String)
    (orders : List (String × Order)) (st : Store ι σ) :
    findLoopS user labels orders st = (findLoop user labels orders, st) := by
  induction orders with
  | nil => rfl
  | cons p rest ih =>
    obtain ⟨key, order⟩ := p
    simp only [findLoopS, findLoop, ih]
    split_ifs <;> rfl

theorem notifyS_fields {ι σ : Type} (impl : Notifiers ι σ)
    (himpl : ∀ n st msg color, (impl n st msg color).2.fields = st.fields)
    (msg color : String) (st : Store ι σ) :
    (notifyS impl msg color st).2.fields = st.fields := by
  unfold notifyS
  cases st.Notifier with
  | none => rfl
  | some n => exact himpl n st msg color

theorem ownersLoopS_fields {ι σ : Type} (impl : Notifiers ι σ)
    (himpl : ∀ n st msg color, (impl n st msg color).2.fields = st.fields)
    (duration orderNum : String) (uses : Int) (labelList nameList : String)
    (owners : List (String × String)) (st : Store ι σ) :
    (ownersLoopS impl duration orderNum uses labelList nameList owners st).2.fields =
      st.fields := by
  induction owners generalizing st with
  | nil => rfl
  | cons p rest ih =>
    obtain ⟨owner, hipchatName⟩ := p
    have hstep := notifyS_fields impl himpl
      (Sprintf NewOrderLink [Arg.str hipchatName, Arg.str st.RoHost,
        Arg.str (linkQuery duration orderNum uses labelList nameList owner)])
      notifier.GreenBackground st
    simp only [ownersLoopS]
    split
    · exact hstep
    · rw [ih, hstep]

theorem NotifyNewOrderS_fields {ι σ : Type} (impl : Notifiers ι σ)
    (himpl : ∀ n st msg color, (impl n st msg color).2.fields = st.fields)
    (duration orderNum : String) (names labels : List String) (uses : Int)
    (owners : List (String × String)) (st : Store ι σ) :
    (NotifyNewOrderS impl duration orderNum names labels uses owners st).2.fields =
      st.fields := by
  have hstep := notifyS_fields impl himpl
    (Sprintf NewOrder [Arg.str (joinLoop "," names 0 ""), Arg.str (joinLoop "," labels 0 ""),
      Arg.int uses, Arg.str duration]) notifier.RedBackground st
  simp only [NotifyNewOrderS]
  split
  · exact hstep
  · rw [ownersLoopS_fields impl himpl, hstep]

theorem notifyS_detached {ι σ : Type} (n : ι → Notifier σ) (msg color : String)
    (st : Store ι σ) (w : World σ) (hw : w.sinkState = st.sinkState) :
    (notifyS (detached n) msg color st).1 = (notify (st.toOrderer n) msg color w).1 ∧
      (notifyS (detached n) msg color st).2.sinkState =
        (notify (st.toOrderer n) msg color w).2.sinkState ∧
      (notifyS (detached n) msg color st).2.toOrderer n = st.toOrderer n := by
  unfold notifyS notify Store.toOrderer
  cases hn : st.Notifier with
  | none => simp [hw, hn]
  | some i => simp [detached, hw, hn]

/-- One step of a loop that stops at the first error, on a store and on an
`Orderer`. -/
theorem step_detached {ι σ : Type} (n : ι → Notifier σ) (o : Orderer σ) (msg color : String)
    (st : Store ι σ) (w : World σ) (ho : st.toOrderer n = o) (hw : w.sinkState = st.sinkState) :
    (notifyS (detached n) msg color st).1 = (notify o msg color w).1 ∧
      (notify o msg color w).2.sinkState = (notifyS (detached n) msg color st).2.sinkState ∧
      (notifyS (detached n) msg color st).2.toOrderer n = o := by
  obtain ⟨h1, h2, h3⟩ := notifyS_detached n msg color st w hw
  rw [ho] at h1 h2 h3
  exact ⟨h1, h2.symm, h3⟩

theorem ownersLoopS_detached {ι σ : Type} (n : ι → Notifier σ) (duration orderNum : String)
    (uses : Int) (labelList nameList : String) (owners : List (String × String))
    (o : Orderer σ) (st : Store ι σ) (w : World σ) (ho : st.toOrderer n = o)
    (hw : w.sinkState = st.sinkState) :
    (ownersLoopS (detached n) duration orderNum uses labelList nameList owners st).1 =
        (ownersLoop o duration orderNum uses labelList nameList owners w).1 ∧
      (ownersLoopS (detached n) duration orderNum uses labelList nameList owners
          st).2.sinkState =
        (ownersLoop o duration orderNum uses labelList nameList owners w).2.sinkState := by
  induction owners generalizing st w with
  | nil => exact ⟨rfl, hw.symm⟩
  | cons p rest ih =>
    obtain ⟨owner, hipchatName⟩ := p
    have hhost : st.RoHost = o.RoHost := by
      rw [← ho]
      rfl
    simp only [ownersLoopS, ownersLoop]
    rw [hhost]
    generalize Sprintf NewOrderLink [Arg.str hipchatName, Arg.str o.RoHost,
      Arg.str (linkQuery duration orderNum uses labelList nameList owner)] = msg
    obtain ⟨h1, h2, h3⟩ := step_detached n o msg notifier.GreenBackground st w ho hw
    rw [h1]
    cases (notify o msg notifier.GreenBackground w).1 with
    | some err => exact ⟨rfl, h2.symm⟩
    | none => exact ih _ _ h3 h2

/-- With notifiers that have no reference to the `Orderer`, `NotifyNewOrder`
on a store returns what `NotifyNewOrder` on the `Orderer` returns and leaves
the notifier in the same state. -/
theorem NotifyNewOrderS_detached {ι σ : Type} (n : ι → Notifier σ) (duration orderNum : String)
    (names labels : List String) (uses : Int) (owners : List (String × String))
    (st : Store ι σ) :
    (NotifyNewOrderS (detached n) duration orderNum names labels uses owners st).1 =
        (NotifyNewOrder (st.toOrderer n) duration orderNum names labels uses owners
          (World.start st.sinkState)).1 ∧
      (NotifyNewOrderS (detached n) duration orderNum names labels uses owners st).2.sinkState =
        (NotifyNewOrder (st.toOrderer n) duration orderNum names labels uses owners
          (World.start st.sinkState)).2.sinkState := by
  simp only [NotifyNewOrderS, NotifyNewOrder]
  generalize Sprintf NewOrder [Arg.str (joinLoop "," names 0 ""),
    Arg.str (joinLoop "," labels 0 ""), Arg.int uses, Arg.str duration] = msg
  obtain ⟨h1, h2, h3⟩ := step_detached n (st.toOrderer n) msg notifier.RedBackground st
    (World.start st.sinkState) rfl rfl
  rw [h1]
  cases (notify (st.toOrderer n) msg notifier.RedBackground (World.start st.sinkState)).1 with
  | some err => exact ⟨rfl, h2.symm⟩
  | none => exact ownersLoopS_detached n _ _ _ _ _ owners _ _ _ h3 h2

/-- C17 (counterexample): the notifier of the registry holds a reference to
the `Orderer` and removes its orders when notified; `NotifyOrderFulfilled`
returns nil and the `Orders` map is no longer what it was. -/
theorem forgetful_notifier_changes_orders :
    exampleStore.Orders = [("abcd1234", exampleOrder)] ∧
      (NotifyOrderFulfilledS forgetful "bob" "abcd1234" exampleStore).1 = none ∧
      (NotifyOrderFulfilledS forgetful "bob" "abcd1234" exampleStore).2.Orders = [] ∧
      (NotifyOrderFulfilledS forgetful "bob" "abcd1234" exampleStore).2.Orders ≠
        exampleStore.Orders := by
  decide

/-- C17 (amended): `FindOrder` returns what the loop over the stored orders
finds and leaves the whole store as it was.  `NotifyNewOrder`,
`NotifyDelegation` and `NotifyOrderFulfilled` write nothing themselves: if no
implementation of `Notify` changes the `Orders` map, `RoHost`, `AlternateName`
or `Notifier`, then these are after the call, whatever it returns, what they
were before. -/
theorem methods_leave_orderer {ι σ : Type} (impl : Notifiers ι σ) (st : Store ι σ)
    (user duration orderNum delegator delegatee name : String) (names labels : List String)
    (uses : Int) (owners : List (String × String)) :
    (FindOrderS user labels st = (findLoop user labels st.Orders, st)) ∧
    ((∀ n (st' : Store ι σ) msg color,
        (impl n st' msg color).2.Orders = st'.Orders ∧
        (impl n st' msg color).2.Notifier = st'.Notifier ∧
        (impl n st' msg color).2.RoHost = st'.RoHost ∧
        (impl n st' msg color).2.AlternateName = st'.AlternateName) →
      ((NotifyNewOrderS impl duration orderNum names labels uses owners st).2.Orders =
          st.Orders ∧
        (NotifyNewOrderS impl duration orderNum names labels uses owners st).2.Notifier =
          st.Notifier ∧
        (NotifyNewOrderS impl duration orderNum names labels uses owners st).2.RoHost =
          st.RoHost ∧
        (NotifyNewOrderS impl duration orderNum names labels uses owners st).2.AlternateName =
          st.AlternateName) ∧
      ((NotifyDelegationS impl delegator delegatee orderNum duration labels st).2.Orders =
          st.Orders ∧
        (NotifyDelegationS impl delegator delegatee orderNum duration labels st).2.Notifier =
          st.Notifier ∧
        (NotifyDelegationS impl delegator delegatee orderNum duration labels st).2.RoHost =
          st.RoHost ∧
        (NotifyDelegationS impl delegator delegatee orderNum duration labels
          st).2.AlternateName = st.AlternateName) ∧
      ((NotifyOrderFulfilledS impl name orderNum st).2.Orders = st.Orders ∧
        (NotifyOrderFulfilledS impl name orderNum st).2.Notifier = st.Notifier ∧
        (NotifyOrderFulfilledS impl name orderNum st).2.RoHost = st.RoHost ∧
        (NotifyOrderFulfilledS impl name orderNum st).2.AlternateName =
          st.AlternateName)) := by
  have hsplit : ∀ a b : Store ι σ, a.fields = b.fields →
      a.Orders = b.Orders ∧ a.Notifier = b.Notifier ∧ a.RoHost = b.RoHost ∧
        a.AlternateName = b.AlternateName := by
    intro a b h
    simp only [Store.fields, Prod.mk.injEq] at h
    exact h
  refine ⟨findLoopS_eq user labels st.Orders st, ?_⟩
  intro hkeep
  have himpl : ∀ n (st' : Store ι σ) msg color, (impl n st' msg color).2.fields = st'.fields := by
    intro n st' msg color
    obtain ⟨h1, h2, h3, h4⟩ := hkeep n st' msg color
    simp only [Store.fields, h1, h2, h3, h4]
  exact ⟨hsplit _ _ (NotifyNewOrderS_fields impl himpl _ _ _ _ _ _ st),
    hsplit _ _ (notifyS_fields impl himpl _ _ st),
    hsplit _ _ (notifyS_fields impl himpl _ _ st)⟩

/-- C17 (amended) at the example store with a notifier that only counts: the
store after `NotifyNewOrder` has the orders it had, and two messages were
counted. -/
theorem methods_leave_orderer_witness :
    (NotifyNewOrderS (detached fun _ => okSink) "24h" "abcd1234" ["bob", "carol"] ["prod-db"] 2
        [("dave", "Dave D")] exampleStore).2.Orders = [("abcd1234", exampleOrder)] ∧
      (NotifyNewOrderS (detached fun _ => okSink) "24h" "abcd1234" ["bob", "carol"] ["prod-db"]
        2 [("dave", "Dave D")] exampleStore).2.sinkState = 2 :=
  have h := (methods_leave_orderer (detached fun _ => okSink) exampleStore "bob" "24h"
    "abcd1234" "dave" "bob" "bob" ["bob", "carol"] ["prod-db"] 2 [("dave", "Dave D")]).2
    (fun _ _ _ _ => ⟨rfl, rfl, rfl, rfl⟩)
  ⟨h.1.1, by decide⟩

end RedOctober
